import Mathlib

/-! # Job and task bookkeeping of the scheduler api

A shallow embedding of
`vendor/github.com/kubernetes-sigs/kube-batch/pkg/scheduler/api/job_info.go`:
the `TaskInfo` and `JobInfo` records, the status-bucket index `TaskStatusIndex`,
and the operations `AddTaskInfo`, `DeleteTaskInfo`, `UpdateTaskStatus`,
`ReadyTaskNum` and `Ready`.

Modelling conventions.

* A Go `map[K]V` is a `Finmap`: a finite, unordered map with extensional
  equality. `len(m)` is the number of keys, `m[k] = v` is `Finmap.insert`,
  `delete(m, k)` is `Finmap.erase`, `v, found := m[k]` is `Finmap.lookup`.
* A `*TaskInfo` is modelled by the record it points to. `AddTaskInfo` stores the
  same pointer in `Tasks` and in one bucket of `TaskStatusIndex`; in the model
  both hold the same value. `UpdateTaskStatus` assigns `task.Status`, so the
  model returns the updated task next to the updated job.
* A method that mutates its receiver takes the job and returns the new job. A
  returned Go `error` is `Option Error` beside that job, so that the state left
  behind by a failing call is visible.
* `len` and the running total of `ReadyTaskNum` are mathematical integers; the
  final `int32(occupid)` conversion is the identity on every count below `2^31`
  and is not modelled.
-/

set_option linter.unusedSectionVars false

namespace Api

/-! ## Identifiers and errors -/

/-- Identifier of a task: `type TaskID types.UID`, a string. -/
abbrev TaskID := String

/-- Identifier of a job: `type JobID types.UID`, a string. -/
abbrev JobID := String

/-- Identifier of a queue. -/
abbrev QueueID := String

/-- Name of one capacity dimension of a resource vector. -/
abbrev ResourceName := String

/-- A Go `error` value, represented by its message. -/
abbrev Error := String

/-! ## Resource vectors -/

/-- Modelled from the spec: the resource vector of `resource_info.go`, which is
not part of the sources at hand. The spec describes it as a "mapping from
resource-name to non-negative quantity" in which absent dimensions count as
zero. It is represented by the multiset in which every resource name occurs as
many times as its quantity, so that `Multiset.count name r` is the quantity of
`name` in `r`. -/
abbrev Resource := Multiset ResourceName

/-- Modelled from the spec: `EmptyResource()`, the vector that is zero in every
dimension. -/
def EmptyResource : Resource := 0

/-- Modelled from the spec: `LessEqual(a,b)` is "true iff every dimension of `a`
≤ corresponding dimension of `b`, dimensions absent in one operand treated as
zero". -/
def Resource.LessEqual (r rr : Resource) : Bool := decide (r ≤ rr)

/-- Modelled from the spec: `Add(a,b)`, the dimension-wise sum. -/
def Resource.Add (r rr : Resource) : Resource := r + rr

/-- Modelled from the spec: `Sub(a,b)` "fails with `NegativeResourceError` if
any dimension of `b` exceeds `a` unless the call site explicitly permits
floor-at-zero". The call sites in `job_info.go` pass no such permission and
discard the result, so a failing `Sub` aborts the calling operation: `none`
stands for that abort, `some` for the dimension-wise difference. -/
def Resource.Sub (r rr : Resource) : Option Resource :=
  if rr.LessEqual r then some (r - rr) else none

/-- Modelled from the spec: `Clone`, a copy of the vector. -/
def Resource.Clone (r : Resource) : Resource := r

/-! ## Task statuses -/

/-- The declarations of package `api` that `job_info.go` uses and that live in
files outside the sources at hand (`types.go`, `helpers.go`): the enumeration
`TaskStatus` itself (the type `S`), the three statuses that `job_info.go`
names, the predicate `AllocatedStatus`, and the status-transition check
`validateStatusUpdate`, which returns an error for a rejected transition.
They are parameters of the development: every theorem holds for every
enumeration, every allocated-status predicate and every transition table. -/
class TaskStatusDecl (S : Type) where
  /-- The status `Pending`. -/
  Pending : S
  /-- The status `Pipelined`. -/
  Pipelined : S
  /-- The status `Succeeded`. -/
  Succeeded : S
  /-- Whether tasks of this status hold resources (`AllocatedStatus`). -/
  AllocatedStatus : S → Bool
  /-- The transition check: `none` when the transition is allowed, `some err`
  (an `InvalidStatusTransitionError`) when it is rejected. -/
  validateStatusUpdate : S → S → Option Error

export TaskStatusDecl (AllocatedStatus validateStatusUpdate)

/-! ## Records -/

/-- The fields of `v1.Pod` that `job_info.go` reads. -/
structure Pod where
  UID : String
  Name : String
  Namespace : String
  Annotations : Finmap (fun _ : String => String)
  NodeName : String
  Priority : Option Int
deriving DecidableEq

/-- The record `TaskInfo`; `S` is the type of task statuses. -/
structure TaskInfo (S : Type) where
  UID : TaskID
  Job : JobID
  Name : String
  Namespace : String
  Resreq : Resource
  InitResreq : Resource
  NodeName : String
  Status : S
  Priority : Int
  VolumeReady : Bool
  Pod : Option Pod
deriving DecidableEq

/-- The map type `tasksMap`: `map[TaskID]*TaskInfo`. -/
abbrev tasksMap (S : Type) := Finmap (fun _ : TaskID => TaskInfo S)

/-- The record `JobInfo`. The fields `NodesFitDelta`, `NodesFitErrors`,
`PodGroup` and `PDB` hold values of types declared outside the sources at hand;
none of the operations below reads or writes them, and they are left out. -/
@[ext]
structure JobInfo (S : Type) where
  UID : JobID
  Name : String
  Namespace : String
  Queue : QueueID
  Priority : Int
  NodeSelector : Finmap (fun _ : String => String)
  MinAvailable : Int
  JobFitErrors : String
  TaskStatusIndex : Finmap (fun _ : S => tasksMap S)
  Tasks : tasksMap S
  Allocated : Resource
  TotalRequest : Resource
  CreationTimestamp : Int
deriving DecidableEq

section Operations

variable {S : Type} [DecidableEq S] [TaskStatusDecl S]

/-- The builtin `len` of a map: its number of keys. -/
def len {K : Type} {V : Type} (m : Finmap (fun _ : K => V)) : Nat := m.keys.card

/-- `addTaskIndex`: create the bucket of `ti.Status` when it is not found, then
store `ti` in that bucket under `ti.UID`. -/
def addTaskIndex (ji : JobInfo S) (ti : TaskInfo S) : JobInfo S :=
  let index : Finmap (fun _ : S => tasksMap S) :=
    match ji.TaskStatusIndex.lookup ti.Status with
    | some _ => ji.TaskStatusIndex
    | none => ji.TaskStatusIndex.insert ti.Status ∅
  let tasks : tasksMap S := (index.lookup ti.Status).getD ∅
  { ji with TaskStatusIndex := index.insert ti.Status (tasks.insert ti.UID ti) }

/-- `AddTaskInfo`: store the task under its UID, index it by status, and add
its request to `TotalRequest` and, for an allocated status, to `Allocated`. -/
def AddTaskInfo (ji : JobInfo S) (ti : TaskInfo S) : JobInfo S :=
  let ji1 := { ji with Tasks := ji.Tasks.insert ti.UID ti }
  let ji2 := addTaskIndex ji1 ti
  let ji3 := { ji2 with TotalRequest := ji2.TotalRequest.Add ti.Resreq }
  if AllocatedStatus ti.Status then
    { ji3 with Allocated := ji3.Allocated.Add ti.Resreq }
  else ji3

/-- `deleteTaskIndex`: when the bucket of `ti.Status` is found, delete `ti.UID`
from it, and delete the bucket itself once it is empty. -/
def deleteTaskIndex (ji : JobInfo S) (ti : TaskInfo S) : JobInfo S :=
  match ji.TaskStatusIndex.lookup ti.Status with
  | some tasks =>
    let tasks1 : tasksMap S := tasks.erase ti.UID
    if len tasks1 = 0 then
      { ji with TaskStatusIndex := ji.TaskStatusIndex.erase ti.Status }
    else
      { ji with TaskStatusIndex := ji.TaskStatusIndex.insert ti.Status tasks1 }
  | none => ji

/-- The error `DeleteTaskInfo` returns for a task it does not find. -/
def notFoundError (ji : JobInfo S) (ti : TaskInfo S) : Error :=
  "failed to find task <" ++ ti.Namespace ++ "/" ++ ti.Name ++ "> in job <" ++
    ji.Namespace ++ "/" ++ ji.Name ++ ">"

/-- `DeleteTaskInfo`: when a task is stored under `ti.UID`, subtract the stored
task's request from the aggregates, delete it from `Tasks` and from its bucket,
and return no error; otherwise return an error. The result is `none` when a
`Sub` fails (the call is aborted), else the job left behind and the returned
error. -/
def DeleteTaskInfo (ji : JobInfo S) (ti : TaskInfo S) :
    Option (JobInfo S × Option Error) :=
  match ji.Tasks.lookup ti.UID with
  | some task =>
    match ji.TotalRequest.Sub task.Resreq with
    | none => none
    | some total =>
      match (if AllocatedStatus task.Status then ji.Allocated.Sub task.Resreq
             else some ji.Allocated) with
      | none => none
      | some allocated =>
        let ji1 := { ji with TotalRequest := total, Allocated := allocated,
                             Tasks := ji.Tasks.erase task.UID }
        some (deleteTaskIndex ji1 task, none)
  | none => some (ji, some (notFoundError ji ti))

/-- `UpdateTaskStatus`: check the transition from `task.Status`; when it is
rejected return its error; otherwise call `DeleteTaskInfo` (discarding the
error it returns), assign the target status to the task and call `AddTaskInfo`
on it. The result is `none` when a `Sub` inside `DeleteTaskInfo` fails, else
the job left behind, the task as left behind, and the returned error. The task
is a value here: the assignment shows in the task returned and in the entries
the call writes, while a bucket entry that an earlier add under the same UID
left behind keeps its status. -/
def UpdateTaskStatus (ji : JobInfo S) (task : TaskInfo S) (status : S) :
    Option (JobInfo S × TaskInfo S × Option Error) :=
  match validateStatusUpdate task.Status status with
  | some err => some (ji, task, some err)
  | none =>
    match DeleteTaskInfo ji task with
    | none => none
    | some (ji1, _) =>
      let task1 := { task with Status := status }
      some (AddTaskInfo ji1 task1, task1, none)

/-- `NewJobInfo`: the empty job with the given UID, to which the given tasks
are added in order. -/
def NewJobInfo (uid : JobID) (tasks : List (TaskInfo S)) : JobInfo S :=
  tasks.foldl AddTaskInfo
    { UID := uid, Name := "", Namespace := "", Queue := "", Priority := 0,
      NodeSelector := ∅, MinAvailable := 0, JobFitErrors := "",
      TaskStatusIndex := ∅, Tasks := ∅,
      Allocated := EmptyResource, TotalRequest := EmptyResource,
      CreationTimestamp := 0 }

/-- The loop body of `ReadyTaskNum`: add the size of a bucket to the running
total when its status is an allocated status or `Succeeded`. -/
def readyStep (occupid : Int) (status : S) (tasks : tasksMap S) : Int :=
  if AllocatedStatus status || decide (status = TaskStatusDecl.Succeeded) then
    occupid + len tasks
  else occupid

/-- `ReadyTaskNum`: range over `TaskStatusIndex`, starting from `0`. -/
def ReadyTaskNum (ji : JobInfo S) : Int :=
  ji.TaskStatusIndex.foldl readyStep
    (by intro d a₁ b₁ a₂ b₂; unfold readyStep; split_ifs <;> omega) 0

/-- `Ready`: whether the number of ready tasks reaches `MinAvailable`. -/
def Ready (ji : JobInfo S) : Bool :=
  decide (ReadyTaskNum ji ≥ ji.MinAvailable)

end Operations

/-! ## Specification-side definitions -/

section Specification

variable {S : Type} [DecidableEq S] [TaskStatusDecl S]

/-- Sum of a weight over the entries of a map: the value a Go `range` loop
accumulates when each iteration adds `f key value` to a running total. -/
def sumOver {K : Type} {V : Type} {M : Type} [AddCommMonoid M] (f : K → V → M)
    (m : Finmap (fun _ : K => V)) : M :=
  (m.entries.map (fun e => f e.1 e.2)).sum

/-- The number of tasks held in the buckets whose status is an allocated status
or `Succeeded`, as the specification words the ready-task count. -/
def readyTaskCount (ji : JobInfo S) : Int :=
  sumOver (fun (status : S) (tasks : tasksMap S) =>
    if AllocatedStatus status = true ∨ status = TaskStatusDecl.Succeeded then (len tasks : Int)
    else 0) ji.TaskStatusIndex

/-- The sum of `Resreq` over the tasks of a task map. -/
def totalResreq (tasks : tasksMap S) : Resource :=
  sumOver (fun (_ : TaskID) (t : TaskInfo S) => t.Resreq) tasks

/-- The sum of `Resreq` over the tasks of a task map whose status is an
allocated status: the other tasks contribute the empty vector. -/
def allocatedResreq (tasks : tasksMap S) : Resource :=
  sumOver (fun (_ : TaskID) (t : TaskInfo S) =>
    if AllocatedStatus t.Status then t.Resreq else 0) tasks

/-- The status-bucket invariant: every task of `Tasks` is held, under its UID,
by the bucket keyed by its `Status`; and every entry of every bucket is the
entry `Tasks` holds under that UID and has the status that keys the bucket.
The second part gives both "no bucket holds a task that is not in `Tasks`" and
"exactly one bucket": a task of `Tasks` found in a bucket has that bucket's
status. -/
structure StatusBucketInvariant (ji : JobInfo S) : Prop where
  /-- Every task of `Tasks` is in the bucket of its status. -/
  task_in_bucket : ∀ (uid : TaskID) (t : TaskInfo S), ji.Tasks.lookup uid = some t →
    ∃ b : tasksMap S, ji.TaskStatusIndex.lookup t.Status = some b ∧ b.lookup uid = some t
  /-- Every bucket entry is a task of `Tasks` with the status of the bucket. -/
  bucket_in_tasks : ∀ (s : S) (b : tasksMap S) (uid : TaskID) (t : TaskInfo S),
    ji.TaskStatusIndex.lookup s = some b → b.lookup uid = some t →
    ji.Tasks.lookup uid = some t ∧ t.Status = s

/-- The jobs obtained from `NewJobInfo` by finitely many calls of `AddTaskInfo`,
`DeleteTaskInfo` and `UpdateTaskStatus`. A call of the latter two that is
aborted leaves no job behind and so contributes none. -/
inductive Reachable : JobInfo S → Prop where
  | new (uid : JobID) (tasks : List (TaskInfo S)) : Reachable (NewJobInfo uid tasks)
  | add {ji : JobInfo S} (ti : TaskInfo S) : Reachable ji → Reachable (AddTaskInfo ji ti)
  | delete {ji ji1 : JobInfo S} (ti : TaskInfo S) (err : Option Error) :
      Reachable ji → DeleteTaskInfo ji ti = some (ji1, err) → Reachable ji1
  | update {ji ji1 : JobInfo S} (task task1 : TaskInfo S) (status : S) (err : Option Error) :
      Reachable ji → UpdateTaskStatus ji task status = some (ji1, task1, err) → Reachable ji1

/-- The jobs obtained as in `Reachable` when no task is added under a UID that
`Tasks` already holds: the tasks given to `NewJobInfo` have pairwise different
UIDs, and `AddTaskInfo` is called only with a task whose UID is not a key of
`Tasks`. -/
inductive ReachableFresh : JobInfo S → Prop where
  | new (uid : JobID) (tasks : List (TaskInfo S)) :
      (tasks.map (fun t => t.UID)).Nodup → ReachableFresh (NewJobInfo uid tasks)
  | add {ji : JobInfo S} (ti : TaskInfo S) :
      ReachableFresh ji → ti.UID ∉ ji.Tasks → ReachableFresh (AddTaskInfo ji ti)
  | delete {ji ji1 : JobInfo S} (ti : TaskInfo S) (err : Option Error) :
      ReachableFresh ji → DeleteTaskInfo ji ti = some (ji1, err) → ReachableFresh ji1
  | update {ji ji1 : JobInfo S} (task task1 : TaskInfo S) (status : S) (err : Option Error) :
      ReachableFresh ji → UpdateTaskStatus ji task status = some (ji1, task1, err) →
      ReachableFresh ji1

/-- The consistency of a job that the three operations maintain when tasks are
added under fresh UIDs: tasks are stored under their own UID, the status-bucket
invariant holds, no bucket is empty, and the two aggregates are the sums over
`Tasks`. -/
structure WellFormed (ji : JobInfo S) : Prop where
  /-- Every task is stored under its own UID. -/
  keys : ∀ (uid : TaskID) (t : TaskInfo S), ji.Tasks.lookup uid = some t → t.UID = uid
  /-- The status buckets partition `Tasks`. -/
  buckets : StatusBucketInvariant ji
  /-- No bucket of the index is empty. -/
  nonempty : ∀ (s : S) (b : tasksMap S), ji.TaskStatusIndex.lookup s = some b → b ≠ ∅
  /-- The aggregate `TotalRequest` is the sum over `Tasks`. -/
  total : ji.TotalRequest = totalResreq ji.Tasks
  /-- The aggregate `Allocated` is the sum over the allocated tasks. -/
  allocated : ji.Allocated = allocatedResreq ji.Tasks

/-- What the three operations maintain on every job, tasks added under a UID
already present included: tasks are stored under their own UID, and the two
aggregates are at least the sums over `Tasks`, so that they cover the request
of every stored task. -/
structure Covered (ji : JobInfo S) : Prop where
  /-- Every task is stored under its own UID. -/
  keys : ∀ (uid : TaskID) (t : TaskInfo S), ji.Tasks.lookup uid = some t → t.UID = uid
  /-- The aggregate `TotalRequest` is at least the sum over `Tasks`. -/
  total : totalResreq ji.Tasks ≤ ji.TotalRequest
  /-- The aggregate `Allocated` is at least the sum over the allocated tasks. -/
  allocated : allocatedResreq ji.Tasks ≤ ji.Allocated

end Specification

/-! ## A concrete status enumeration -/

/-- Modelled from the spec: a task-status enumeration holding the statuses that
the spec and `job_info.go` name. It instantiates the parameters of
`TaskStatusDecl` where the definitions are evaluated on examples. -/
inductive SampleStatus where
  | Pending
  | Allocated
  | Pipelined
  | Running
  | Succeeded
  | Failed
deriving DecidableEq

/-- Modelled from the spec: `Allocated` and `Running` are the allocated
statuses, and the transition check rejects `Succeeded → Pending`, the spec's
example of an illegal transition, and allows every other one. -/
instance sampleDecl : TaskStatusDecl SampleStatus where
  Pending := SampleStatus.Pending
  Pipelined := SampleStatus.Pipelined
  Succeeded := SampleStatus.Succeeded
  AllocatedStatus := fun s => decide (s = SampleStatus.Allocated ∨ s = SampleStatus.Running)
  validateStatusUpdate := fun old new =>
    if old = SampleStatus.Succeeded ∧ new = SampleStatus.Pending then
      some "InvalidStatusTransitionError"
    else none

/-- A task of the sample enumeration with the given UID, status and request;
the other fields are zero values. -/
def sampleTask (uid : TaskID) (status : SampleStatus) (resreq : Resource) :
    TaskInfo SampleStatus :=
  { UID := uid, Job := "", Name := uid, Namespace := "", Resreq := resreq,
    InitResreq := resreq, NodeName := "", Status := status, Priority := 1,
    VolumeReady := false, Pod := none }

/-! ## Cloning and task construction -/

section CloneAndNew

variable {S : Type} [DecidableEq S] [TaskStatusDecl S]

/-- `TaskInfo.Clone`: a new record holding every field of the task; the two
resource vectors are cloned and the pod reference is shared. -/
def TaskInfo.Clone (ti : TaskInfo S) : TaskInfo S :=
  { UID := ti.UID, Job := ti.Job, Name := ti.Name, Namespace := ti.Namespace,
    NodeName := ti.NodeName, Status := ti.Status, Priority := ti.Priority, Pod := ti.Pod,
    Resreq := ti.Resreq.Clone, InitResreq := ti.InitResreq.Clone,
    VolumeReady := ti.VolumeReady }

/-- A list is an order in which a Go `range` loop may visit the values of a
task map: it holds every value of the map once. -/
def IsRangeOrder (order : List (TaskInfo S)) (tasks : tasksMap S) : Prop :=
  (order : Multiset (TaskInfo S)) = tasks.entries.map (fun e => e.2)

/-- `JobInfo.Clone`: a new job with the identification fields, `MinAvailable`,
the node selector and the creation time of `ji`, empty aggregates and empty
maps, to which the clone of every task of `ji.Tasks` is added with
`AddTaskInfo`. Go leaves the order of the `range` loop over `ji.Tasks` open;
`order` is the order the loop takes. `JobFitErrors` is not copied. -/
def JobInfo.Clone (ji : JobInfo S) (order : List (TaskInfo S)) : JobInfo S :=
  order.foldl (fun info task => AddTaskInfo info task.Clone)
    { UID := ji.UID, Name := ji.Name, Namespace := ji.Namespace, Queue := ji.Queue,
      Priority := ji.Priority, MinAvailable := ji.MinAvailable,
      NodeSelector := ji.NodeSelector, Allocated := EmptyResource,
      TotalRequest := EmptyResource, JobFitErrors := "", TaskStatusIndex := ∅, Tasks := ∅,
      CreationTimestamp := ji.CreationTimestamp }

/-- `getJobID`: the job of a pod is named by its group-name annotation, when
that annotation is present and not empty. `GroupNameAnnotationKey` is a
constant of package `v1alpha1`, declared outside the sources at hand, and is a
parameter. -/
def getJobID (GroupNameAnnotationKey : String) (pod : Pod) : JobID :=
  if len pod.Annotations ≠ 0 then
    match pod.Annotations.lookup GroupNameAnnotationKey with
    | some gn => if gn.length ≠ 0 then pod.Namespace ++ "/" ++ gn else ""
    | none => ""
  else ""

/-- `NewTaskInfo`: the task record of a pod. The helpers
`GetPodResourceWithoutInitContainers`, `GetPodResourceRequest` and
`getTaskStatus` are declared outside the sources at hand and are parameters. -/
def NewTaskInfo (GroupNameAnnotationKey : String)
    (GetPodResourceWithoutInitContainers GetPodResourceRequest : Pod → Resource)
    (getTaskStatus : Pod → S) (pod : Pod) : TaskInfo S :=
  let req := GetPodResourceWithoutInitContainers pod
  let initResreq := GetPodResourceRequest pod
  let jobID := getJobID GroupNameAnnotationKey pod
  let ti : TaskInfo S :=
    { UID := pod.UID, Job := jobID, Name := pod.Name, Namespace := pod.Namespace,
      NodeName := pod.NodeName, Status := getTaskStatus pod, Priority := 1, Pod := some pod,
      Resreq := req, InitResreq := initResreq, VolumeReady := false }
  match pod.Priority with
  | some priority => { ti with Priority := priority }
  | none => ti

end CloneAndNew

/-! ## Task queries and pipelining -/

section Queries

variable {S : Type} [DecidableEq S] [TaskStatusDecl S]

/-- `GetTasks`: for every listed status, in order, whose bucket is found, the
clones of the tasks of that bucket are appended to the result. Go leaves the
order of the `range` loop over a bucket open; `order tasks` is the order the
loop over the bucket `tasks` takes. -/
def GetTasks (ji : JobInfo S) (order : tasksMap S → List (TaskInfo S)) (statuses : List S) :
    List (TaskInfo S) :=
  statuses.foldl (fun res status =>
    match ji.TaskStatusIndex.lookup status with
    | some tasks => res ++ (order tasks).map TaskInfo.Clone
    | none => res) []

/-- The tasks of `Tasks` whose status is among the listed statuses, each entry
of `Tasks` counted once. -/
def tasksWithStatus (ji : JobInfo S) (statuses : List S) : Multiset (TaskInfo S) :=
  (ji.Tasks.entries.map (fun e => e.2)).filter (fun t => t.Status ∈ statuses)

/-- The loop body of `WaitingTaskNum`: add the size of a bucket to the running
total when its status is `Pipelined`. -/
def waitingStep (occupid : Int) (status : S) (tasks : tasksMap S) : Int :=
  if status = TaskStatusDecl.Pipelined then occupid + len tasks else occupid

/-- `WaitingTaskNum`: range over `TaskStatusIndex`, starting from `0`. -/
def WaitingTaskNum (ji : JobInfo S) : Int :=
  ji.TaskStatusIndex.foldl waitingStep
    (by intro d a₁ b₁ a₂ b₂; unfold waitingStep; split_ifs <;> omega) 0

/-- `Pipelined`: whether the number of ready and pipelined tasks reaches
`MinAvailable`. -/
def Pipelined (ji : JobInfo S) : Bool :=
  decide (WaitingTaskNum ji + ReadyTaskNum ji ≥ ji.MinAvailable)

end Queries

/-- A sample order for the loop over a bucket whose keys are among `t1`, `t2`
and `t3`: the tasks are visited in the order of these keys. -/
def sampleOrder (tasks : tasksMap SampleStatus) : List (TaskInfo SampleStatus) :=
  ["t1", "t2", "t3"].filterMap (fun k => tasks.lookup k)

end Api

/-! # Resource lists of the command line (`pkg/cli/job/util.go`) -/

namespace CliJob

open Api (Error)

/-- The type `v1.ResourceList`: a map from resource names to quantities. `Q` is
the type `resource.Quantity` of the Kubernetes library. -/
abbrev ResourceList (Q : Type) := Finmap (fun _ : String => Q)

/-- The library function `strings.Split` for a separator of one character: the
substrings of `s` between the occurrences of `sep`, in order. The result is
never empty: a string without `sep` is returned whole. -/
def Split : List Char → Char → List (List Char)
  | [], _ => [[]]
  | c :: cs, sep =>
    if c = sep then [] :: Split cs sep
    else
      match Split cs sep with
      | [] => [[c]]
      | part :: parts => (c :: part) :: parts

/-- The error of a statement that does not split into a name and a value. -/
def syntaxError (resourceStatement : List Char) : Error :=
  "invalid argument syntax " ++ String.mk resourceStatement ++
    ", expected <resource>=<value>"

/-- The loop of `populateResourceListV1` over the remaining statements, with
the list built so far. It returns the pair of the Go function: the resource
list (`none` is the nil list) and the error. `ParseQuantity` is the library
function `resource.ParseQuantity` and is a parameter. -/
def populateLoop {Q : Type} (ParseQuantity : String → Except Error Q) :
    List (List Char) → ResourceList Q → Option (ResourceList Q) × Option Error
  | [], result => (some result, none)
  | resourceStatement :: rest, result =>
    match Split resourceStatement '=' with
    | [name, value] =>
      match ParseQuantity (String.mk value) with
      | Except.error err => (none, some err)
      | Except.ok resourceQuantity =>
        populateLoop ParseQuantity rest (result.insert (String.mk name) resourceQuantity)
    | _ => (none, some (syntaxError resourceStatement))

/-- `populateResourceListV1`: the nil list and no error for the empty string;
otherwise the list built from the comma-separated statements, or the error of
the first statement that fails. -/
def populateResourceListV1 {Q : Type} (ParseQuantity : String → Except Error Q)
    (spec : String) : Option (ResourceList Q) × Option Error :=
  if spec = "" then (none, none)
  else populateLoop ParseQuantity (Split spec.data ',') ∅

/-- The name of a statement `name=value`: what stands before the first `=`. -/
def statementName (resourceStatement : List Char) : String :=
  String.mk (resourceStatement.takeWhile (fun c => c ≠ '='))

/-- The value of a statement `name=value`: what stands after the first `=`. -/
def statementValue (resourceStatement : List Char) : String :=
  String.mk ((resourceStatement.dropWhile (fun c => c ≠ '=')).drop 1)

/-- A statement is well formed when it contains exactly one `=` and its value
parses as a quantity. -/
def WellFormedStatement {Q : Type} (ParseQuantity : String → Except Error Q)
    (resourceStatement : List Char) : Prop :=
  resourceStatement.count '=' = 1 ∧
    ∃ q : Q, ParseQuantity (statementValue resourceStatement) = Except.ok q

/-- The parsed quantity of the last statement of the list that has the given
name, if there is one. -/
def lastQuantity {Q : Type} (ParseQuantity : String → Except Error Q)
    (statements : List (List Char)) (name : String) : Option Q :=
  match statements.reverse.find? (fun st => decide (statementName st = name)) with
  | some st =>
    match ParseQuantity (statementValue st) with
    | Except.ok q => some q
    | Except.error _ => none
  | none => none

/-- A sample quantity parser for the evaluation of examples: it accepts the
non-empty strings of decimal digits, which it reads as natural numbers. -/
def sampleParseQuantity (s : String) : Except Error Nat :=
  if s.data ≠ [] ∧ s.data.all Char.isDigit = true then
    Except.ok (s.data.foldl (fun n c => 10 * n + (c.toNat - 48)) 0)
  else Except.error ("unable to parse quantity " ++ s)

end CliJob

/-! # The aborting state of the job controller (`pkg/controllers/job/state/aborting.go`) -/

namespace State

/-- Modelled from the spec: the phases of a job, "`Pending, Inqueue, Running,
Restarting, Aborting, Aborted, Terminating, Terminated, Completing, Completed,
Failed`". The type is declared in package `v1alpha1`, outside the sources at
hand. -/
inductive JobPhase where
  | Pending
  | Inqueue
  | Running
  | Restarting
  | Aborting
  | Aborted
  | Terminating
  | Terminated
  | Completing
  | Completed
  | Failed
deriving DecidableEq

/-- A point in time, as `metav1.Time`. -/
abbrev Time := Int

/-- Modelled from the spec: the state of a job, its phase and the time of the
last transition ("commits the new phase and timestamp"). -/
structure JobState where
  Phase : JobPhase
  LastTransitionTime : Time
deriving DecidableEq

/-- Modelled from the spec: `JobStatus`, "phase (enumerated) plus per-status
task counts and a retry counter", with the tallies the spec lists
("pending/running/terminating/succeeded/failed"). The type is declared in
package `v1alpha1`, outside the sources at hand; the counters are integers. -/
structure JobStatus where
  State : JobState
  Pending : Int
  Running : Int
  Succeeded : Int
  Failed : Int
  Terminating : Int
  RetryCount : Int
deriving DecidableEq

/-- Modelled from the spec: the retain policy of a kill, "`Soft`: leave tasks
whose natural termination already satisfies the target state; `Hard`:
force-terminate all". -/
inductive PodRetainPhase where
  | Soft
  | Hard
deriving DecidableEq

/-- The soft retain policy. -/
def PodRetainPhaseSoft : PodRetainPhase := PodRetainPhase.Soft

/-- A status mutator: it is given the status, may change it, and returns
whether the phase transition is final. The first argument is the reading of
the clock (`metav1.Now()`) at the time of the call. -/
abbrev UpdateStatusFn := Time → JobStatus → JobStatus × Bool

/-- `abortingState.Execute`. The function `KillJob`, the type of actions `A`
with its constant `ResumeJobAction`, the job record `J` and the result `R`
are declared outside the sources at hand and are parameters. -/
def Execute {J A R : Type} [DecidableEq A]
    (KillJob : J → PodRetainPhase → UpdateStatusFn → R) (ResumeJobAction : A)
    (job : J) (action : A) : R :=
  if action = ResumeJobAction then
    KillJob job PodRetainPhaseSoft (fun _ status =>
      ({ status with RetryCount := status.RetryCount + 1 }, false))
  else
    KillJob job PodRetainPhaseSoft (fun now status =>
      if status.Terminating ≠ 0 ∨ status.Pending ≠ 0 ∨ status.Running ≠ 0 then
        (status, false)
      else
        ({ status with State := { Phase := JobPhase.Aborted, LastTransitionTime := now } },
          true))

end State

/-! # The resync loop of the job controller (`pkg/controllers/job/job_controller_resync.go`) -/

namespace JobController

open Api (Error Pod len)

/-- Modelled from the spec: the rate-limited work queue of the Kubernetes
library, a queue "keyed by item identity, storing a requeue counter" per item.
`queue` holds the items waiting for delivery, in order; `requeues` is the
counter. The delays of the rate limiter are not modelled: an item added with
backoff is delivered after the items that wait already. -/
structure RateLimitingQueue where
  queue : List Pod
  requeues : Finmap (fun _ : Pod => Nat)
deriving DecidableEq

/-- Modelled from the spec: `NumRequeues`, the requeue counter of an item. -/
def RateLimitingQueue.NumRequeues (q : RateLimitingQueue) (item : Pod) : Nat :=
  (q.requeues.lookup item).getD 0

/-- Modelled from the spec: `Get`, the next item and the queue without it;
`none` when no item is delivered (the queue is shut down). -/
def RateLimitingQueue.Get (q : RateLimitingQueue) : Option (Pod × RateLimitingQueue) :=
  match q.queue with
  | [] => none
  | item :: rest => some (item, { q with queue := rest })

/-- Modelled from the spec: `Forget`, which drops the requeue counter of the
item ("dropped (forgotten)"). -/
def RateLimitingQueue.Forget (q : RateLimitingQueue) (item : Pod) : RateLimitingQueue :=
  { q with requeues := q.requeues.erase item }

/-- Modelled from the spec: `Done`, which ends the processing of a delivered
item; it changes neither the waiting items nor the counters. -/
def RateLimitingQueue.Done (q : RateLimitingQueue) (_item : Pod) : RateLimitingQueue := q

/-- Modelled from the spec: `AddRateLimited`, which counts one more requeue of
the item and lets it wait for delivery, once ("keyed by item identity"). -/
def RateLimitingQueue.AddRateLimited (q : RateLimitingQueue) (item : Pod) :
    RateLimitingQueue :=
  { queue := if item ∈ q.queue then q.queue else q.queue ++ [item],
    requeues := q.requeues.insert item (q.NumRequeues item + 1) }

/-- The collaborators of `syncTask`, declared outside the sources at hand: the
fetch of a pod from the cluster (`kubeClients...Get`), the test
`errors.IsNotFound`, and the two operations of the cache, which return the
cache they leave behind and their error. `C` is the type of the cache. -/
structure Collaborators (C : Type) where
  Get : Pod → Except Error Pod
  IsNotFound : Error → Bool
  DeletePod : C → Pod → C × Option Error
  UpdatePod : C → Pod → C × Option Error

/-- The fields of `Controller` that the resync loop uses: the queue `errTasks`
and the cache. `syncCalls` is not a field of the source: it records, in order,
the tasks `syncTask` was called on. -/
structure Controller (C : Type) where
  errTasks : RateLimitingQueue
  cache : C
  syncCalls : List Pod

/-- `syncTask`: fetch the pod; when it is not found, delete it from the cache;
on another fetch error, return an error; otherwise update the cache with the
fetched pod. It returns the cache left behind and the error. -/
def syncTask {C : Type} (env : Collaborators C) (cache : C) (oldTask : Pod) :
    C × Option Error :=
  match env.Get oldTask with
  | Except.error err =>
    if env.IsNotFound err then
      match env.DeletePod cache oldTask with
      | (cache1, some err1) => (cache1, some err1)
      | (cache1, none) => (cache1, none)
    else
      (cache, some ("failed to get Pod <" ++ oldTask.Namespace ++ "/" ++ oldTask.Name ++
        ">: err " ++ err))
  | Except.ok newPod => env.UpdatePod cache newPod

/-- `resyncTask`: add the task to the queue with backoff. -/
def resyncTask {C : Type} (cc : Controller C) (task : Pod) : Controller C :=
  { cc with errTasks := cc.errTasks.AddRateLimited task }

/-- `processResyncTask`: take the next task of the queue; forget it when it was
requeued more than 10 times; otherwise call `syncTask` on it and, when that
returns an error, `resyncTask`; `Done` is deferred to the end of the call. -/
def processResyncTask {C : Type} (env : Collaborators C) (cc : Controller C) :
    Controller C :=
  match cc.errTasks.Get with
  | none => cc
  | some (obj, q1) =>
    if q1.NumRequeues obj > 10 then
      { cc with errTasks := q1.Forget obj }
    else
      let r := syncTask env cc.cache obj
      let cc1 : Controller C :=
        { errTasks := q1, cache := r.1, syncCalls := cc.syncCalls ++ [obj] }
      let cc2 : Controller C :=
        match r.2 with
        | some _ => resyncTask cc1 obj
        | none => cc1
      { cc2 with errTasks := cc2.errTasks.Done obj }

/-- The bookkeeping of one task along the resync loop when its sync always
fails: the task waits in the queue at most once; while it waits, `syncTask`
was called on it once less than it was requeued, and it was requeued at most
11 times; once it no longer waits, its counter is dropped and `syncTask` was
called on it at most 10 times. -/
def Tracked {C : Type} (item : Pod) (cc : Controller C) : Prop :=
  cc.errTasks.queue.count item ≤ 1 ∧
    ((item ∈ cc.errTasks.queue ∧
        cc.syncCalls.count item + 1 = cc.errTasks.NumRequeues item ∧
        cc.errTasks.NumRequeues item ≤ 11) ∨
      (item ∉ cc.errTasks.queue ∧ cc.errTasks.NumRequeues item = 0 ∧
        cc.syncCalls.count item ≤ 10))

/-- A sample pod for the evaluation of examples. -/
def samplePod (name : String) : Pod :=
  { UID := name, Name := name, Namespace := "default", Annotations := ∅, NodeName := "",
    Priority := none }

/-- Sample collaborators for the evaluation of examples, over a cache that is
the list of the names of its pods: the fetch of the pod `lost` fails with
`timeout`, the pod `gone` is not found, and every other pod is fetched as it
is. -/
def sampleCollaborators : Collaborators (List String) :=
  { Get := fun pod =>
      if pod.Name = "lost" then Except.error "timeout"
      else if pod.Name = "gone" then Except.error "not found"
      else Except.ok pod,
    IsNotFound := fun err => decide (err = "not found"),
    DeletePod := fun cache pod => (cache.erase pod.Name, none),
    UpdatePod := fun cache pod =>
      (if pod.Name ∈ cache then cache else cache ++ [pod.Name], none) }

end JobController

namespace Api

/-! ## Finite maps -/

section FinmapLemmas

variable {K : Type} {V : Type} [DecidableEq K]

theorem keys_insert (a : K) (b : V) (m : Finmap (fun _ : K => V)) :
    (m.insert a b).keys = insert a m.keys := by
  ext x
  simp [Finmap.mem_keys, Finmap.mem_insert]

theorem len_le_len_insert (a : K) (b : V) (m : Finmap (fun _ : K => V)) :
    len m ≤ len (m.insert a b) := by
  unfold len
  rw [keys_insert]
  exact Finset.card_le_card (Finset.subset_insert a m.keys)

theorem len_erase_le (a : K) (m : Finmap (fun _ : K => V)) :
    len (m.erase a) ≤ len m := by
  unfold len
  rw [Finmap.keys_erase]
  exact Finset.card_erase_le

theorem len_insert_of_not_mem {a : K} (b : V) {m : Finmap (fun _ : K => V)} (h : a ∉ m) :
    len (m.insert a b) = len m + 1 := by
  unfold len
  rw [keys_insert, Finset.card_insert_of_not_mem]
  simpa [Finmap.mem_keys] using h

theorem len_eq_zero_iff (m : Finmap (fun _ : K => V)) : len m = 0 ↔ m = ∅ := by
  unfold len
  rw [Finset.card_eq_zero]
  constructor
  · intro h
    apply Finmap.ext_lookup
    intro x
    rw [Finmap.lookup_empty, Finmap.lookup_eq_none, ← Finmap.mem_keys, h]
    exact Finset.not_mem_empty x
  · intro h
    rw [h]
    exact Finmap.keys_empty

theorem insert_erase_self (a : K) (b : V) (m : Finmap (fun _ : K => V)) :
    (m.erase a).insert a b = m.insert a b := by
  apply Finmap.ext_lookup
  intro x
  by_cases hx : x = a
  · subst hx
    rw [Finmap.lookup_insert, Finmap.lookup_insert]
  · rw [Finmap.lookup_insert_of_ne _ hx, Finmap.lookup_insert_of_ne _ hx,
      Finmap.lookup_erase_ne hx]

theorem insert_erase_of_lookup {a : K} {b : V} {m : Finmap (fun _ : K => V)}
    (h : m.lookup a = some b) : (m.erase a).insert a b = m := by
  apply Finmap.ext_lookup
  intro x
  by_cases hx : x = a
  · subst hx
    rw [Finmap.lookup_insert, h]
  · rw [Finmap.lookup_insert_of_ne _ hx, Finmap.lookup_erase_ne hx]

theorem erase_of_lookup_none {a : K} {m : Finmap (fun _ : K => V)}
    (h : m.lookup a = none) : m.erase a = m := by
  apply Finmap.ext_lookup
  intro x
  by_cases hx : x = a
  · subst hx
    rw [Finmap.lookup_erase, h]
  · rw [Finmap.lookup_erase_ne hx]

theorem erase_insert_of_lookup_none {a : K} (b : V) {m : Finmap (fun _ : K => V)}
    (h : m.lookup a = none) : (m.insert a b).erase a = m := by
  apply Finmap.ext_lookup
  intro x
  by_cases hx : x = a
  · subst hx
    rw [Finmap.lookup_erase, h]
  · rw [Finmap.lookup_erase_ne hx, Finmap.lookup_insert_of_ne _ hx]

omit [DecidableEq K] in
theorem sumOver_empty {M : Type} [AddCommMonoid M] (f : K → V → M) :
    sumOver f (∅ : Finmap (fun _ : K => V)) = 0 := by
  rfl

theorem sumOver_insert {M : Type} [AddCommMonoid M] (f : K → V → M) (a : K) (b : V)
    (m : Finmap (fun _ : K => V)) :
    sumOver f (m.insert a b) = f a b + sumOver f (m.erase a) := by
  rw [← insert_erase_self]
  unfold sumOver
  rw [Finmap.insert_entries_of_neg Finmap.not_mem_erase_self]
  simp

theorem sumOver_of_lookup {M : Type} [AddCommMonoid M] (f : K → V → M) {a : K} {b : V}
    {m : Finmap (fun _ : K => V)} (h : m.lookup a = some b) :
    sumOver f m = f a b + sumOver f (m.erase a) := by
  conv_lhs => rw [← insert_erase_of_lookup h]
  rw [sumOver_insert, Finmap.erase_erase]
  congr 1
  rw [erase_of_lookup_none (Finmap.lookup_erase a m)]

omit [DecidableEq K] in
theorem foldl_eq_sumOver (f : K → V → Int) (g : Int → K → V → Int)
    (hg : ∀ d a b, g d a b = d + f a b) (H) (d : Int) (m : Finmap (fun _ : K => V)) :
    m.foldl g H d = d + sumOver f m := by
  unfold Finmap.foldl sumOver
  generalize m.entries = s
  induction s using Multiset.induction_on generalizing d with
  | empty => simp
  | cons e s ih =>
    rw [Multiset.foldl_cons, ih, hg]
    simp [add_assoc]

end FinmapLemmas

/-! ## The operations, field by field -/

section JobLemmas

variable {S : Type} [DecidableEq S] [TaskStatusDecl S]

omit [TaskStatusDecl S] in
theorem addTaskIndex_index (ji : JobInfo S) (ti : TaskInfo S) :
    (addTaskIndex ji ti).TaskStatusIndex =
      ji.TaskStatusIndex.insert ti.Status
        (((ji.TaskStatusIndex.lookup ti.Status).getD ∅).insert ti.UID ti) := by
  unfold addTaskIndex
  cases h : ji.TaskStatusIndex.lookup ti.Status with
  | none => simp [Finmap.lookup_insert, Finmap.insert_insert]
  | some b => simp [h]

theorem AddTaskInfo_index (ji : JobInfo S) (ti : TaskInfo S) :
    (AddTaskInfo ji ti).TaskStatusIndex =
      ji.TaskStatusIndex.insert ti.Status
        (((ji.TaskStatusIndex.lookup ti.Status).getD ∅).insert ti.UID ti) := by
  unfold AddTaskInfo
  split_ifs <;> simp [addTaskIndex_index]

theorem AddTaskInfo_tasks (ji : JobInfo S) (ti : TaskInfo S) :
    (AddTaskInfo ji ti).Tasks = ji.Tasks.insert ti.UID ti := by
  unfold AddTaskInfo addTaskIndex
  split_ifs <;> rfl

theorem AddTaskInfo_total (ji : JobInfo S) (ti : TaskInfo S) :
    (AddTaskInfo ji ti).TotalRequest = ji.TotalRequest + ti.Resreq := by
  unfold AddTaskInfo addTaskIndex Resource.Add
  split_ifs <;> rfl

theorem AddTaskInfo_allocated (ji : JobInfo S) (ti : TaskInfo S) :
    (AddTaskInfo ji ti).Allocated =
      if AllocatedStatus ti.Status then ji.Allocated + ti.Resreq else ji.Allocated := by
  unfold AddTaskInfo addTaskIndex Resource.Add
  split_ifs <;> rfl

theorem AddTaskInfo_minAvailable (ji : JobInfo S) (ti : TaskInfo S) :
    (AddTaskInfo ji ti).MinAvailable = ji.MinAvailable := by
  unfold AddTaskInfo addTaskIndex
  split_ifs <;> rfl

omit [TaskStatusDecl S] in
theorem deleteTaskIndex_index_of_none {ji : JobInfo S} {ti : TaskInfo S}
    (h : ji.TaskStatusIndex.lookup ti.Status = none) :
    (deleteTaskIndex ji ti).TaskStatusIndex = ji.TaskStatusIndex := by
  unfold deleteTaskIndex
  rw [h]

omit [TaskStatusDecl S] in
theorem deleteTaskIndex_index_of_some {ji : JobInfo S} {ti : TaskInfo S} {b : tasksMap S}
    (h : ji.TaskStatusIndex.lookup ti.Status = some b) :
    (deleteTaskIndex ji ti).TaskStatusIndex =
      if b.erase ti.UID = ∅ then ji.TaskStatusIndex.erase ti.Status
      else ji.TaskStatusIndex.insert ti.Status (b.erase ti.UID) := by
  unfold deleteTaskIndex
  rw [h]
  simp only [len_eq_zero_iff]
  split_ifs <;> rfl

omit [TaskStatusDecl S] in
theorem deleteTaskIndex_tasks (ji : JobInfo S) (ti : TaskInfo S) :
    (deleteTaskIndex ji ti).Tasks = ji.Tasks := by
  unfold deleteTaskIndex
  split
  · dsimp only
    split_ifs <;> rfl
  · rfl

omit [TaskStatusDecl S] in
theorem deleteTaskIndex_total (ji : JobInfo S) (ti : TaskInfo S) :
    (deleteTaskIndex ji ti).TotalRequest = ji.TotalRequest := by
  unfold deleteTaskIndex
  split
  · dsimp only
    split_ifs <;> rfl
  · rfl

omit [TaskStatusDecl S] in
theorem deleteTaskIndex_allocated (ji : JobInfo S) (ti : TaskInfo S) :
    (deleteTaskIndex ji ti).Allocated = ji.Allocated := by
  unfold deleteTaskIndex
  split
  · dsimp only
    split_ifs <;> rfl
  · rfl

/-- The outcome of `DeleteTaskInfo` when no task is stored under the UID. -/
theorem DeleteTaskInfo_of_lookup_none {ji : JobInfo S} {ti : TaskInfo S}
    (h : ji.Tasks.lookup ti.UID = none) :
    DeleteTaskInfo ji ti = some (ji, some (notFoundError ji ti)) := by
  unfold DeleteTaskInfo
  rw [h]

/-- The outcome of `DeleteTaskInfo` when a task is stored under the UID: every
completed call returns no error and leaves the job described here. -/
theorem DeleteTaskInfo_of_lookup_some {ji ji1 : JobInfo S} {ti task : TaskInfo S}
    {err : Option Error} (h : ji.Tasks.lookup ti.UID = some task)
    (hd : DeleteTaskInfo ji ti = some (ji1, err)) :
    err = none ∧ task.Resreq ≤ ji.TotalRequest ∧
      (AllocatedStatus task.Status = true → task.Resreq ≤ ji.Allocated) ∧
      ji1 = deleteTaskIndex
        { ji with TotalRequest := ji.TotalRequest - task.Resreq,
                  Allocated := if AllocatedStatus task.Status then ji.Allocated - task.Resreq
                               else ji.Allocated,
                  Tasks := ji.Tasks.erase task.UID } task := by
  unfold DeleteTaskInfo at hd
  rw [h] at hd
  simp only [Resource.Sub, Resource.LessEqual] at hd
  by_cases h1 : task.Resreq ≤ ji.TotalRequest
  · by_cases h2 : AllocatedStatus task.Status = true
    · by_cases h3 : task.Resreq ≤ ji.Allocated
      · simp [h1, h2, h3] at hd
        refine ⟨hd.2.symm, h1, fun _ => h3, ?_⟩
        rw [← hd.1]
        simp [h2]
      · simp [h1, h2, h3] at hd
    · simp [h1, h2] at hd
      refine ⟨hd.2.symm, h1, fun h => absurd h h2, ?_⟩
      rw [← hd.1]
      simp [h2]
  · simp [h1] at hd

/-- `DeleteTaskInfo` completes when the aggregates cover the stored request. -/
theorem DeleteTaskInfo_of_le {ji : JobInfo S} {ti task : TaskInfo S}
    (h : ji.Tasks.lookup ti.UID = some task) (h1 : task.Resreq ≤ ji.TotalRequest)
    (h2 : AllocatedStatus task.Status = true → task.Resreq ≤ ji.Allocated) :
    DeleteTaskInfo ji ti = some (deleteTaskIndex
        { ji with TotalRequest := ji.TotalRequest - task.Resreq,
                  Allocated := if AllocatedStatus task.Status then ji.Allocated - task.Resreq
                               else ji.Allocated,
                  Tasks := ji.Tasks.erase task.UID } task, none) := by
  unfold DeleteTaskInfo
  rw [h]
  simp only [Resource.Sub, Resource.LessEqual]
  by_cases ha : AllocatedStatus task.Status = true
  · simp [h1, ha, h2 ha]
  · simp [h1, ha]

theorem ReadyTaskNum_eq_readyTaskCount (ji : JobInfo S) :
    ReadyTaskNum ji = readyTaskCount ji := by
  unfold ReadyTaskNum readyTaskCount
  rw [foldl_eq_sumOver (fun (status : S) (tasks : tasksMap S) =>
    if AllocatedStatus status = true ∨ status = TaskStatusDecl.Succeeded then (len tasks : Int)
    else 0)]
  · simp
  · intro d a b
    unfold readyStep
    by_cases h : AllocatedStatus a = true ∨ a = TaskStatusDecl.Succeeded
    · have : (AllocatedStatus a || decide (a = TaskStatusDecl.Succeeded)) = true := by
        simpa using h
      simp [h, this]
    · have : ¬ (AllocatedStatus a || decide (a = TaskStatusDecl.Succeeded)) = true := by
        simpa using h
      simp [h, this]

/-- The weight of one bucket in the ready-task count. -/
theorem readyWeight_nonneg (status : S) (tasks : tasksMap S) :
    (0 : Int) ≤ (if AllocatedStatus status = true ∨ status = TaskStatusDecl.Succeeded
      then (len tasks : Int) else 0) := by
  split_ifs
  · exact Int.natCast_nonneg _
  · exact le_refl _

/-- The weight of one bucket in the ready-task count grows with the bucket. -/
theorem readyWeight_mono (status : S) {b1 b2 : tasksMap S} (h : len b1 ≤ len b2) :
    (if AllocatedStatus status = true ∨ status = TaskStatusDecl.Succeeded
      then (len b1 : Int) else 0) ≤
    (if AllocatedStatus status = true ∨ status = TaskStatusDecl.Succeeded
      then (len b2 : Int) else 0) := by
  split_ifs
  · exact_mod_cast h
  · exact le_refl _

/-- Replacing or creating a bucket by one at least as large does not lower the
ready-task count of an index. -/
theorem readyTaskCount_insert_ge (ji ji1 : JobInfo S) (status : S) (b1 : tasksMap S)
    (hidx : ji1.TaskStatusIndex = ji.TaskStatusIndex.insert status b1)
    (hlen : ∀ b, ji.TaskStatusIndex.lookup status = some b → len b ≤ len b1) :
    readyTaskCount ji ≤ readyTaskCount ji1 := by
  unfold readyTaskCount
  rw [hidx, sumOver_insert]
  cases h : ji.TaskStatusIndex.lookup status with
  | none =>
    rw [erase_of_lookup_none h]
    have := readyWeight_nonneg status b1
    omega
  | some b =>
    rw [sumOver_of_lookup _ h]
    have := readyWeight_mono status (hlen b h)
    omega

/-- Replacing a bucket by one at most as large does not raise the ready-task
count of an index. -/
theorem readyTaskCount_insert_le (ji ji1 : JobInfo S) (status : S) (b b1 : tasksMap S)
    (h : ji.TaskStatusIndex.lookup status = some b)
    (hidx : ji1.TaskStatusIndex = ji.TaskStatusIndex.insert status b1)
    (hlen : len b1 ≤ len b) :
    readyTaskCount ji1 ≤ readyTaskCount ji := by
  unfold readyTaskCount
  rw [hidx, sumOver_insert, sumOver_of_lookup _ h]
  have := readyWeight_mono status hlen
  omega

/-- Deleting a bucket does not raise the ready-task count of an index. -/
theorem readyTaskCount_erase_le (ji ji1 : JobInfo S) (status : S)
    (hidx : ji1.TaskStatusIndex = ji.TaskStatusIndex.erase status) :
    readyTaskCount ji1 ≤ readyTaskCount ji := by
  unfold readyTaskCount
  rw [hidx]
  cases h : ji.TaskStatusIndex.lookup status with
  | none => rw [erase_of_lookup_none h]
  | some b =>
    rw [sumOver_of_lookup _ h]
    have := readyWeight_nonneg status b
    omega

theorem readyTaskCount_deleteTaskIndex_le (ji : JobInfo S) (ti : TaskInfo S) :
    readyTaskCount (deleteTaskIndex ji ti) ≤ readyTaskCount ji := by
  cases h : ji.TaskStatusIndex.lookup ti.Status with
  | none =>
    unfold readyTaskCount
    rw [deleteTaskIndex_index_of_none h]
  | some b =>
    have hidx := deleteTaskIndex_index_of_some h
    by_cases he : b.erase ti.UID = ∅
    · rw [if_pos he] at hidx
      exact readyTaskCount_erase_le ji _ ti.Status hidx
    · rw [if_neg he] at hidx
      exact readyTaskCount_insert_le ji _ ti.Status b _ h hidx (len_erase_le _ _)

end JobLemmas

/-! ## Readiness -/

section Readiness

variable {S : Type} [DecidableEq S] [TaskStatusDecl S]

/-- C8: for every job, `Ready()` is true exactly when `ReadyTaskNum()` is at
least `MinAvailable`, and `ReadyTaskNum()` is the number of tasks held in the
buckets whose status is an allocated status or `Succeeded`. -/
theorem Ready_iff_ReadyTaskNum_ge (ji : JobInfo S) :
    (Ready ji = true ↔ ReadyTaskNum ji ≥ ji.MinAvailable) ∧
      ReadyTaskNum ji = readyTaskCount ji := by
  refine ⟨?_, ReadyTaskNum_eq_readyTaskCount ji⟩
  unfold Ready
  exact decide_eq_true_iff

/-- C9: for every job and every task, of any status and whether or not its UID
is already in the job, `ReadyTaskNum()` after `AddTaskInfo` is greater than or
equal to `ReadyTaskNum()` before it. -/
theorem ReadyTaskNum_AddTaskInfo_ge (ji : JobInfo S) (ti : TaskInfo S) :
    ReadyTaskNum (AddTaskInfo ji ti) ≥ ReadyTaskNum ji := by
  rw [ReadyTaskNum_eq_readyTaskCount, ReadyTaskNum_eq_readyTaskCount]
  apply readyTaskCount_insert_ge ji _ ti.Status _ (AddTaskInfo_index ji ti)
  intro b hb
  rw [hb]
  exact len_le_len_insert _ _ _

/-- C10: for every job and every task (of any status, so in particular a
running one), `ReadyTaskNum()` of the job that a completed `DeleteTaskInfo`
leaves behind is less than or equal to `ReadyTaskNum()` before the call. -/
theorem ReadyTaskNum_DeleteTaskInfo_le (ji ji1 : JobInfo S) (ti : TaskInfo S)
    (err : Option Error) (h : DeleteTaskInfo ji ti = some (ji1, err)) :
    ReadyTaskNum ji1 ≤ ReadyTaskNum ji := by
  rw [ReadyTaskNum_eq_readyTaskCount, ReadyTaskNum_eq_readyTaskCount]
  cases hl : ji.Tasks.lookup ti.UID with
  | none =>
    rw [DeleteTaskInfo_of_lookup_none hl] at h
    simp only [Option.some.injEq, Prod.mk.injEq] at h
    rw [← h.1]
  | some task =>
    obtain ⟨-, -, -, hji1⟩ := DeleteTaskInfo_of_lookup_some hl h
    rw [hji1]
    exact readyTaskCount_deleteTaskIndex_le _ task

/-- The claim C10 at a job holding one running task, which is deleted: the
ready-task count falls from one to zero. -/
theorem ReadyTaskNum_DeleteTaskInfo_le_witness :
    DeleteTaskInfo (NewJobInfo "job" [sampleTask "t1" SampleStatus.Running {"cpu"}])
        (sampleTask "t1" SampleStatus.Running {"cpu"}) =
      some (NewJobInfo "job" [], none) ∧
    ReadyTaskNum (NewJobInfo "job" ([] : List (TaskInfo SampleStatus))) ≤
      ReadyTaskNum (NewJobInfo "job" [sampleTask "t1" SampleStatus.Running {"cpu"}]) :=
  ⟨by decide,
    ReadyTaskNum_DeleteTaskInfo_le
      (NewJobInfo "job" [sampleTask "t1" SampleStatus.Running {"cpu"}]) (NewJobInfo "job" [])
      (sampleTask "t1" SampleStatus.Running {"cpu"}) none (by decide)⟩

end Readiness

/-! ## Error paths -/

section ErrorPaths

variable {S : Type} [DecidableEq S] [TaskStatusDecl S]

/-- C3: for every job, task and target status for which the status-transition
check rejects the transition, `UpdateTaskStatus` returns that error and leaves
the job (so its `Tasks`, `TaskStatusIndex`, `Allocated` and `TotalRequest`) and
the task (so its `Status`) unchanged. -/
theorem UpdateTaskStatus_rejected (ji : JobInfo S) (task : TaskInfo S) (status : S)
    (err : Error) (h : validateStatusUpdate task.Status status = some err) :
    UpdateTaskStatus ji task status = some (ji, task, some err) := by
  unfold UpdateTaskStatus
  rw [h]

/-- The claim C3 at the transition `Succeeded → Pending` of a stored task. -/
theorem UpdateTaskStatus_rejected_witness :
    validateStatusUpdate SampleStatus.Succeeded SampleStatus.Pending =
      some "InvalidStatusTransitionError" ∧
    UpdateTaskStatus (NewJobInfo "job" [sampleTask "t1" SampleStatus.Succeeded {"cpu"}])
        (sampleTask "t1" SampleStatus.Succeeded {"cpu"}) SampleStatus.Pending =
      some (NewJobInfo "job" [sampleTask "t1" SampleStatus.Succeeded {"cpu"}],
        sampleTask "t1" SampleStatus.Succeeded {"cpu"}, some "InvalidStatusTransitionError") :=
  ⟨by decide,
    UpdateTaskStatus_rejected
      (NewJobInfo "job" [sampleTask "t1" SampleStatus.Succeeded {"cpu"}])
      (sampleTask "t1" SampleStatus.Succeeded {"cpu"}) SampleStatus.Pending
      "InvalidStatusTransitionError" (by decide)⟩

/-- C6: for every job and task, `DeleteTaskInfo` returns an error if and only
if the task's UID is not a key of the job's `Tasks`, and a call that returns an
error leaves the job (so its `Tasks`, `TaskStatusIndex`, `Allocated` and
`TotalRequest`) unchanged. -/
theorem DeleteTaskInfo_error_iff (ji : JobInfo S) (ti : TaskInfo S) :
    ((∃ (ji1 : JobInfo S) (err : Error), DeleteTaskInfo ji ti = some (ji1, some err)) ↔
        ti.UID ∉ ji.Tasks) ∧
      ∀ (ji1 : JobInfo S) (err : Error),
        DeleteTaskInfo ji ti = some (ji1, some err) → ji1 = ji := by
  cases hl : ji.Tasks.lookup ti.UID with
  | none =>
    have hnot : ti.UID ∉ ji.Tasks := Finmap.lookup_eq_none.mp hl
    rw [DeleteTaskInfo_of_lookup_none hl]
    refine ⟨⟨fun _ => hnot, fun _ => ⟨ji, notFoundError ji ti, rfl⟩⟩, ?_⟩
    intro ji1 err h
    simp only [Option.some.injEq, Prod.mk.injEq] at h
    exact h.1.symm
  | some task =>
    have hmem : ti.UID ∈ ji.Tasks := Finmap.mem_of_lookup_eq_some hl
    refine ⟨⟨?_, fun h => absurd hmem h⟩, ?_⟩
    · rintro ⟨ji1, err, h⟩
      have := (DeleteTaskInfo_of_lookup_some hl h).1
      simp at this
    · intro ji1 err h
      have := (DeleteTaskInfo_of_lookup_some hl h).1
      simp at this

/-- C7 (amended): for every job and every task whose UID is not in the job's
`Tasks`, `UpdateTaskStatus` returns an error exactly when the status-transition
check rejects the transition (and then leaves job and task unchanged); when the
check passes it returns no error and adds the task to the job with the target
status. -/
theorem UpdateTaskStatus_of_not_mem (ji : JobInfo S) (task : TaskInfo S) (status : S)
    (h : task.UID ∉ ji.Tasks) :
    UpdateTaskStatus ji task status =
      match validateStatusUpdate task.Status status with
      | some err => some (ji, task, some err)
      | none =>
        some (AddTaskInfo ji { task with Status := status }, { task with Status := status },
          none) := by
  unfold UpdateTaskStatus
  rw [DeleteTaskInfo_of_lookup_none (Finmap.lookup_eq_none.mpr h)]

/-- The amended claim C7 at the empty job and a pending task that is set to
`Running`: no error, and the job left behind is the one holding the task. -/
theorem UpdateTaskStatus_of_not_mem_witness :
    "t1" ∉ (NewJobInfo "job" ([] : List (TaskInfo SampleStatus))).Tasks ∧
    UpdateTaskStatus (NewJobInfo "job" []) (sampleTask "t1" SampleStatus.Pending {"cpu"})
        SampleStatus.Running =
      some (NewJobInfo "job" [sampleTask "t1" SampleStatus.Running {"cpu"}],
        sampleTask "t1" SampleStatus.Running {"cpu"}, none) :=
  ⟨by decide,
    (UpdateTaskStatus_of_not_mem (NewJobInfo "job" [])
      (sampleTask "t1" SampleStatus.Pending {"cpu"}) SampleStatus.Running (by decide)).trans
      (by decide)⟩

/-- The claim C7 fails: the UID `t1` is not in the empty job, the transition
`Pending → Running` passes the check, and `UpdateTaskStatus` returns no error;
it leaves a job that holds the task. -/
theorem UpdateTaskStatus_unknown_task_no_error :
    "t1" ∉ (NewJobInfo "job" ([] : List (TaskInfo SampleStatus))).Tasks ∧
    (UpdateTaskStatus (NewJobInfo "job" []) (sampleTask "t1" SampleStatus.Pending {"cpu"})
        SampleStatus.Running).map (fun r => (r.1.Tasks.lookup "t1", r.2.2)) =
      some (some (sampleTask "t1" SampleStatus.Running {"cpu"}), none) := by
  decide

end ErrorPaths

/-! ## The invariants along the operations -/

section Invariants

variable {S : Type} [DecidableEq S] [TaskStatusDecl S]

theorem totalResreq_insert {tasks : tasksMap S} {ti : TaskInfo S}
    (h : tasks.lookup ti.UID = none) :
    totalResreq (tasks.insert ti.UID ti) = totalResreq tasks + ti.Resreq := by
  unfold totalResreq
  rw [sumOver_insert, erase_of_lookup_none h, add_comm]

theorem allocatedResreq_insert {tasks : tasksMap S} {ti : TaskInfo S}
    (h : tasks.lookup ti.UID = none) :
    allocatedResreq (tasks.insert ti.UID ti) =
      allocatedResreq tasks + (if AllocatedStatus ti.Status then ti.Resreq else 0) := by
  unfold allocatedResreq
  rw [sumOver_insert, erase_of_lookup_none h, add_comm]

theorem totalResreq_of_lookup {tasks : tasksMap S} {uid : TaskID} {task : TaskInfo S}
    (h : tasks.lookup uid = some task) :
    totalResreq tasks = task.Resreq + totalResreq (tasks.erase uid) := by
  unfold totalResreq
  rw [sumOver_of_lookup _ h]

theorem allocatedResreq_of_lookup {tasks : tasksMap S} {uid : TaskID} {task : TaskInfo S}
    (h : tasks.lookup uid = some task) :
    allocatedResreq tasks =
      (if AllocatedStatus task.Status then task.Resreq else 0) +
        allocatedResreq (tasks.erase uid) := by
  unfold allocatedResreq
  rw [sumOver_of_lookup _ h]

/-- The job `NewJobInfo` starts from is well formed. -/
theorem WellFormed.newJobInfo_nil (uid : JobID) :
    WellFormed (NewJobInfo uid ([] : List (TaskInfo S))) := by
  unfold NewJobInfo
  refine ⟨?_, ⟨?_, ?_⟩, ?_, ?_, ?_⟩
  · intro u t h
    simp [Finmap.lookup_empty] at h
  · intro u t h
    simp [Finmap.lookup_empty] at h
  · intro s b u t h
    simp [Finmap.lookup_empty] at h
  · intro s b h
    simp [Finmap.lookup_empty] at h
  · simp [totalResreq, sumOver_empty, EmptyResource]
  · simp [allocatedResreq, sumOver_empty, EmptyResource]

/-- `AddTaskInfo` of a task under a fresh UID keeps a job well formed. -/
theorem WellFormed.add {ji : JobInfo S} (h : WellFormed ji) {ti : TaskInfo S}
    (hf : ti.UID ∉ ji.Tasks) : WellFormed (AddTaskInfo ji ti) := by
  have hnone : ji.Tasks.lookup ti.UID = none := Finmap.lookup_eq_none.mpr hf
  refine ⟨?_, ⟨?_, ?_⟩, ?_, ?_, ?_⟩
  · intro uid t ht
    rw [AddTaskInfo_tasks] at ht
    by_cases hu : uid = ti.UID
    · subst hu
      rw [Finmap.lookup_insert] at ht
      injection ht with ht
      rw [← ht]
    · rw [Finmap.lookup_insert_of_ne _ hu] at ht
      exact h.keys uid t ht
  · intro uid t ht
    rw [AddTaskInfo_tasks] at ht
    rw [AddTaskInfo_index]
    by_cases hu : uid = ti.UID
    · subst hu
      rw [Finmap.lookup_insert] at ht
      injection ht with ht
      subst ht
      exact ⟨_, Finmap.lookup_insert _, Finmap.lookup_insert _⟩
    · rw [Finmap.lookup_insert_of_ne _ hu] at ht
      obtain ⟨b, hb, hbt⟩ := h.buckets.task_in_bucket uid t ht
      by_cases hs : t.Status = ti.Status
      · refine ⟨_, by rw [hs]; exact Finmap.lookup_insert _, ?_⟩
        rw [← hs, hb, Finmap.lookup_insert_of_ne _ hu]
        exact hbt
      · exact ⟨b, by rw [Finmap.lookup_insert_of_ne _ hs]; exact hb, hbt⟩
  · intro s b uid t hb hbt
    rw [AddTaskInfo_index] at hb
    rw [AddTaskInfo_tasks]
    by_cases hs : s = ti.Status
    · subst hs
      rw [Finmap.lookup_insert] at hb
      injection hb with hb
      subst hb
      by_cases hu : uid = ti.UID
      · subst hu
        rw [Finmap.lookup_insert] at hbt
        injection hbt with hbt
        subst hbt
        exact ⟨Finmap.lookup_insert _, rfl⟩
      · rw [Finmap.lookup_insert_of_ne _ hu] at hbt
        rw [Finmap.lookup_insert_of_ne _ hu]
        cases hl : ji.TaskStatusIndex.lookup ti.Status with
        | none =>
          rw [hl] at hbt
          simp [Finmap.lookup_empty] at hbt
        | some b0 =>
          rw [hl] at hbt
          exact h.buckets.bucket_in_tasks _ b0 uid t hl hbt
    · rw [Finmap.lookup_insert_of_ne _ hs] at hb
      have hold := h.buckets.bucket_in_tasks s b uid t hb hbt
      have hu : uid ≠ ti.UID := by
        rintro rfl
        rw [hnone] at hold
        simp at hold
      rw [Finmap.lookup_insert_of_ne _ hu]
      exact hold
  · intro s b hb
    rw [AddTaskInfo_index] at hb
    by_cases hs : s = ti.Status
    · subst hs
      rw [Finmap.lookup_insert] at hb
      injection hb with hb
      subst hb
      intro he
      have hl := Finmap.lookup_insert (a := ti.UID) (b := ti)
        ((ji.TaskStatusIndex.lookup ti.Status).getD ∅)
      rw [he, Finmap.lookup_empty] at hl
      simp at hl
    · rw [Finmap.lookup_insert_of_ne _ hs] at hb
      exact h.nonempty s b hb
  · rw [AddTaskInfo_total, AddTaskInfo_tasks, totalResreq_insert hnone, h.total]
  · rw [AddTaskInfo_allocated, AddTaskInfo_tasks, allocatedResreq_insert hnone, h.allocated]
    split_ifs <;> simp

/-- The buckets of the index after `deleteTaskIndex`, when the bucket of the
task's status is found. -/
theorem deleteTaskIndex_lookup (ji : JobInfo S) {ti : TaskInfo S} {b : tasksMap S}
    (h : ji.TaskStatusIndex.lookup ti.Status = some b) (s : S) :
    (deleteTaskIndex ji ti).TaskStatusIndex.lookup s =
      if s = ti.Status then (if b.erase ti.UID = ∅ then none else some (b.erase ti.UID))
      else ji.TaskStatusIndex.lookup s := by
  rw [deleteTaskIndex_index_of_some h]
  by_cases hs : s = ti.Status
  · subst hs
    by_cases he : b.erase ti.UID = ∅
    · simp [he, Finmap.lookup_erase]
    · simp [he, Finmap.lookup_insert]
  · by_cases he : b.erase ti.UID = ∅
    · simp [he, hs, Finmap.lookup_erase_ne hs]
    · simp [he, hs, Finmap.lookup_insert_of_ne _ hs]

/-- A completed `DeleteTaskInfo` keeps a job well formed. -/
theorem WellFormed.delete {ji ji1 : JobInfo S} (h : WellFormed ji) {ti : TaskInfo S}
    {err : Option Error} (hd : DeleteTaskInfo ji ti = some (ji1, err)) : WellFormed ji1 := by
  cases hl : ji.Tasks.lookup ti.UID with
  | none =>
    rw [DeleteTaskInfo_of_lookup_none hl] at hd
    simp only [Option.some.injEq, Prod.mk.injEq] at hd
    rw [← hd.1]
    exact h
  | some task =>
    obtain ⟨-, -, -, hji1⟩ := DeleteTaskInfo_of_lookup_some hl hd
    have huid : task.UID = ti.UID := h.keys _ _ hl
    rw [← huid] at hl
    obtain ⟨b, hb, hbt⟩ := h.buckets.task_in_bucket _ _ hl
    have htasks : ji1.Tasks = ji.Tasks.erase task.UID := by
      rw [hji1, deleteTaskIndex_tasks]
    have hidx : ∀ s, ji1.TaskStatusIndex.lookup s =
        if s = task.Status then (if b.erase task.UID = ∅ then none else some (b.erase task.UID))
        else ji.TaskStatusIndex.lookup s := by
      intro s
      rw [hji1]
      exact deleteTaskIndex_lookup { ji with
        TotalRequest := ji.TotalRequest - task.Resreq,
        Allocated := if AllocatedStatus task.Status then ji.Allocated - task.Resreq
                     else ji.Allocated,
        Tasks := ji.Tasks.erase task.UID } hb s
    have htotal : ji1.TotalRequest = ji.TotalRequest - task.Resreq := by
      rw [hji1, deleteTaskIndex_total]
    have halloc : ji1.Allocated =
        if AllocatedStatus task.Status then ji.Allocated - task.Resreq else ji.Allocated := by
      rw [hji1, deleteTaskIndex_allocated]
    have hne : ∀ (u : TaskID) (t : TaskInfo S), ji1.Tasks.lookup u = some t →
        u ≠ task.UID ∧ ji.Tasks.lookup u = some t := by
      intro u t ht
      rw [htasks] at ht
      have hu : u ≠ task.UID := by
        rintro rfl
        rw [Finmap.lookup_erase] at ht
        simp at ht
      rw [Finmap.lookup_erase_ne hu] at ht
      exact ⟨hu, ht⟩
    refine ⟨?_, ⟨?_, ?_⟩, ?_, ?_, ?_⟩
    · intro u t ht
      exact h.keys u t (hne u t ht).2
    · intro u t ht
      obtain ⟨hu, hold⟩ := hne u t ht
      obtain ⟨b0, hb0, hb0t⟩ := h.buckets.task_in_bucket u t hold
      rw [hidx]
      by_cases hs : t.Status = task.Status
      · rw [hs, hb] at hb0
        injection hb0 with hb0
        subst hb0
        have hlk : (b.erase task.UID).lookup u = some t := by
          rw [Finmap.lookup_erase_ne hu]
          exact hb0t
        have he : b.erase task.UID ≠ ∅ := by
          intro he
          rw [he, Finmap.lookup_empty] at hlk
          simp at hlk
        exact ⟨_, by simp [hs, he], hlk⟩
      · exact ⟨b0, by simp [hs, hb0], hb0t⟩
    · intro s b1 u t hb1 hb1t
      rw [hidx] at hb1
      rw [htasks]
      by_cases hs : s = task.Status
      · subst hs
        by_cases he : b.erase task.UID = ∅
        · simp [he] at hb1
        · simp only [if_true, if_neg he, Option.some.injEq] at hb1
          subst hb1
          have hu : u ≠ task.UID := by
            rintro rfl
            rw [Finmap.lookup_erase] at hb1t
            simp at hb1t
          rw [Finmap.lookup_erase_ne hu] at hb1t
          rw [Finmap.lookup_erase_ne hu]
          exact h.buckets.bucket_in_tasks _ b u t hb hb1t
      · rw [if_neg hs] at hb1
        have hold := h.buckets.bucket_in_tasks s b1 u t hb1 hb1t
        have hu : u ≠ task.UID := by
          rintro rfl
          rw [hl] at hold
          injection hold.1 with h1
          rw [← h1] at hold
          exact hs hold.2.symm
        rw [Finmap.lookup_erase_ne hu]
        exact hold
    · intro s b1 hb1
      rw [hidx] at hb1
      by_cases hs : s = task.Status
      · by_cases he : b.erase task.UID = ∅
        · simp [hs, he] at hb1
        · simp only [if_pos hs, if_neg he, Option.some.injEq] at hb1
          rw [← hb1]
          exact he
      · rw [if_neg hs] at hb1
        exact h.nonempty s b1 hb1
    · rw [htotal, htasks, h.total, totalResreq_of_lookup hl, add_tsub_cancel_left]
    · rw [halloc, htasks, h.allocated, allocatedResreq_of_lookup hl]
      split_ifs
      · rw [add_tsub_cancel_left]
      · rw [zero_add]

/-- A completed `UpdateTaskStatus` keeps a job well formed. -/
theorem WellFormed.update {ji ji1 : JobInfo S} (h : WellFormed ji) {task task1 : TaskInfo S}
    {status : S} {err : Option Error}
    (hu : UpdateTaskStatus ji task status = some (ji1, task1, err)) : WellFormed ji1 := by
  unfold UpdateTaskStatus at hu
  cases hv : validateStatusUpdate task.Status status with
  | some e =>
    rw [hv] at hu
    simp only [Option.some.injEq, Prod.mk.injEq] at hu
    rw [← hu.1]
    exact h
  | none =>
    rw [hv] at hu
    cases hd : DeleteTaskInfo ji task with
    | none =>
      rw [hd] at hu
      simp at hu
    | some r =>
      obtain ⟨ji2, err2⟩ := r
      rw [hd] at hu
      simp only [Option.some.injEq, Prod.mk.injEq] at hu
      rw [← hu.1]
      apply (h.delete hd).add
      show task.UID ∉ ji2.Tasks
      cases hl : ji.Tasks.lookup task.UID with
      | none =>
        rw [DeleteTaskInfo_of_lookup_none hl] at hd
        simp only [Option.some.injEq, Prod.mk.injEq] at hd
        rw [← hd.1]
        exact Finmap.lookup_eq_none.mp hl
      | some stored =>
        obtain ⟨-, -, -, hji2⟩ := DeleteTaskInfo_of_lookup_some hl hd
        rw [hji2, deleteTaskIndex_tasks, ← h.keys _ _ hl]
        exact Finmap.not_mem_erase_self

/-- `NewJobInfo` on tasks of pairwise different UIDs, none of them in the job
the fold starts from, keeps that job well formed. -/
theorem WellFormed.foldl_add (tasks : List (TaskInfo S)) :
    ∀ ji : JobInfo S, WellFormed ji → (tasks.map (fun t => t.UID)).Nodup →
      (∀ t ∈ tasks, t.UID ∉ ji.Tasks) → WellFormed (tasks.foldl AddTaskInfo ji) := by
  induction tasks with
  | nil =>
    intro ji h _ _
    exact h
  | cons t ts ih =>
    intro ji h hnd hfresh
    rw [List.foldl_cons]
    rw [List.map_cons, List.nodup_cons] at hnd
    apply ih _ (h.add (hfresh t (List.mem_cons_self t ts))) hnd.2
    intro t1 ht1
    rw [AddTaskInfo_tasks, Finmap.mem_insert]
    rintro (heq | hmem)
    · apply hnd.1
      rw [← heq]
      exact List.mem_map_of_mem (fun t => t.UID) ht1
    · exact hfresh t1 (List.mem_cons_of_mem t ht1) hmem

/-- Every job built from `NewJobInfo` by the three operations, with tasks added
under fresh UIDs only, is well formed. -/
theorem ReachableFresh.wellFormed {ji : JobInfo S} (h : ReachableFresh ji) : WellFormed ji := by
  induction h with
  | new uid tasks hnd =>
    have h0 := WellFormed.newJobInfo_nil (S := S) uid
    unfold NewJobInfo at h0 ⊢
    apply WellFormed.foldl_add tasks _ h0 hnd
    intro t _
    simp [Finmap.not_mem_empty]
  | add ti _ hf ih => exact ih.add hf
  | delete ti err _ hd ih => exact ih.delete hd
  | update task task1 status err _ hu ih => exact ih.update hu

end Invariants

/-! ## The status-bucket invariant and the aggregates -/

section Contracts

variable {S : Type} [DecidableEq S] [TaskStatusDecl S]

/-- The claim C1 fails: `NewJobInfo` given two tasks of the same UID `t1`, one
`Pending` and one `Running`, leaves the pending one in the `Pending` bucket
while `Tasks` holds the running one under `t1`, so a bucket holds a task that
is not in `Tasks`. -/
theorem StatusBucketInvariant_duplicate_uid :
    Reachable (NewJobInfo "job" [sampleTask "t1" SampleStatus.Pending {"cpu"},
        sampleTask "t1" SampleStatus.Running {"cpu"}]) ∧
    ¬ StatusBucketInvariant (NewJobInfo "job" [sampleTask "t1" SampleStatus.Pending {"cpu"},
        sampleTask "t1" SampleStatus.Running {"cpu"}]) := by
  refine ⟨Reachable.new _ _, fun h => ?_⟩
  have hb := h.bucket_in_tasks SampleStatus.Pending
    (Finmap.singleton "t1" (sampleTask "t1" SampleStatus.Pending {"cpu"})) "t1"
    (sampleTask "t1" SampleStatus.Pending {"cpu"}) (by decide) (by decide)
  revert hb
  decide

/-- C1 (amended): for every job obtained from `NewJobInfo` by any finite
sequence of `AddTaskInfo`, `DeleteTaskInfo` and `UpdateTaskStatus` calls in
which tasks are added only under UIDs that `Tasks` does not hold yet, the
status buckets partition `Tasks`: every task of `Tasks` is in the bucket keyed
by its `Status`, and every bucket entry is the task `Tasks` holds under that
UID and has the bucket's status. -/
theorem ReachableFresh.statusBucketInvariant {ji : JobInfo S} (h : ReachableFresh ji) :
    StatusBucketInvariant ji :=
  h.wellFormed.buckets

/-- The amended claim C1 at the job built from a pending and a running task. -/
theorem ReachableFresh.statusBucketInvariant_witness :
    (["t1", "t2"] : List TaskID).Nodup ∧
    StatusBucketInvariant (NewJobInfo "job" [sampleTask "t1" SampleStatus.Pending {"cpu"},
        sampleTask "t2" SampleStatus.Running {"cpu"}]) :=
  ⟨by decide,
    ReachableFresh.statusBucketInvariant
      (ReachableFresh.new "job" [sampleTask "t1" SampleStatus.Pending {"cpu"},
        sampleTask "t2" SampleStatus.Running {"cpu"}] (by decide))⟩

/-- The claim C4 fails: `NewJobInfo` given two tasks of the same UID `t1`, each
requesting one cpu, counts two cpus in `TotalRequest` while `Tasks` holds one
task, whose request is one cpu. -/
theorem TotalRequest_duplicate_uid :
    Reachable (NewJobInfo "job" [sampleTask "t1" SampleStatus.Pending {"cpu"},
        sampleTask "t1" SampleStatus.Running {"cpu"}]) ∧
    (NewJobInfo "job" [sampleTask "t1" SampleStatus.Pending {"cpu"},
        sampleTask "t1" SampleStatus.Running {"cpu"}]).TotalRequest = {"cpu", "cpu"} ∧
    totalResreq (NewJobInfo "job" [sampleTask "t1" SampleStatus.Pending {"cpu"},
        sampleTask "t1" SampleStatus.Running {"cpu"}]).Tasks = {"cpu"} ∧
    (NewJobInfo "job" [sampleTask "t1" SampleStatus.Pending {"cpu"},
        sampleTask "t1" SampleStatus.Running {"cpu"}]).TotalRequest ≠
      totalResreq (NewJobInfo "job" [sampleTask "t1" SampleStatus.Pending {"cpu"},
        sampleTask "t1" SampleStatus.Running {"cpu"}]).Tasks :=
  ⟨Reachable.new _ _, by decide, by decide, by decide⟩

/-- C4 (amended): for every job obtained from `NewJobInfo` by any finite
sequence of `AddTaskInfo`, `DeleteTaskInfo` and `UpdateTaskStatus` calls in
which tasks are added only under UIDs that `Tasks` does not hold yet,
`TotalRequest` equals the sum of `Resreq` over the tasks in `Tasks`, and
`Allocated` equals the sum of `Resreq` over the tasks in `Tasks` whose status
is an allocated status. -/
theorem ReachableFresh.aggregates {ji : JobInfo S} (h : ReachableFresh ji) :
    ji.TotalRequest = totalResreq ji.Tasks ∧ ji.Allocated = allocatedResreq ji.Tasks :=
  ⟨h.wellFormed.total, h.wellFormed.allocated⟩

/-- The amended claim C4 at the job built from a pending and a running task. -/
theorem ReachableFresh.aggregates_witness :
    (["t1", "t2"] : List TaskID).Nodup ∧
    (NewJobInfo "job" [sampleTask "t1" SampleStatus.Pending {"cpu"},
        sampleTask "t2" SampleStatus.Running {"cpu", "memory"}]).TotalRequest =
      totalResreq (NewJobInfo "job" [sampleTask "t1" SampleStatus.Pending {"cpu"},
        sampleTask "t2" SampleStatus.Running {"cpu", "memory"}]).Tasks ∧
    (NewJobInfo "job" [sampleTask "t1" SampleStatus.Pending {"cpu"},
        sampleTask "t2" SampleStatus.Running {"cpu", "memory"}]).Allocated =
      allocatedResreq (NewJobInfo "job" [sampleTask "t1" SampleStatus.Pending {"cpu"},
        sampleTask "t2" SampleStatus.Running {"cpu", "memory"}]).Tasks :=
  ⟨by decide,
    ReachableFresh.aggregates
      (ReachableFresh.new "job" [sampleTask "t1" SampleStatus.Pending {"cpu"},
        sampleTask "t2" SampleStatus.Running {"cpu", "memory"}] (by decide))⟩

/-- `AddTaskInfo` writes the four fields `Tasks`, `TaskStatusIndex`,
`TotalRequest` and `Allocated` and no other. -/
theorem AddTaskInfo_eq (ji : JobInfo S) (ti : TaskInfo S) :
    AddTaskInfo ji ti =
      { ji with Tasks := (AddTaskInfo ji ti).Tasks,
                TaskStatusIndex := (AddTaskInfo ji ti).TaskStatusIndex,
                TotalRequest := (AddTaskInfo ji ti).TotalRequest,
                Allocated := (AddTaskInfo ji ti).Allocated } := by
  unfold AddTaskInfo addTaskIndex
  split_ifs <;> rfl

/-- `deleteTaskIndex` writes the field `TaskStatusIndex` and no other. -/
theorem deleteTaskIndex_eq (ji : JobInfo S) (ti : TaskInfo S) :
    deleteTaskIndex ji ti =
      { ji with TaskStatusIndex := (deleteTaskIndex ji ti).TaskStatusIndex } := by
  unfold deleteTaskIndex
  split
  · dsimp only
    split_ifs <;> rfl
  · rfl

/-- The outcome of `UpdateTaskStatus` on a stored task whose request the
aggregates cover, for a transition that passes the check: the call returns no
error, the task's `Status` becomes the target status (in the task left behind
and in `Tasks`), the task is in the target status's bucket and, when the two
statuses differ, no longer in its old bucket, the set of task UIDs in `Tasks`
is unchanged, and `TotalRequest` is unchanged. -/
theorem UpdateTaskStatus_stored (ji : JobInfo S) (task : TaskInfo S) (status : S)
    (hinv : StatusBucketInvariant ji)
    (hstored : ji.Tasks.lookup task.UID = some task)
    (hvalid : validateStatusUpdate task.Status status = none)
    (htotal : task.Resreq ≤ ji.TotalRequest)
    (halloc : AllocatedStatus task.Status = true → task.Resreq ≤ ji.Allocated) :
    ∃ ji1 : JobInfo S,
      UpdateTaskStatus ji task status = some (ji1, { task with Status := status }, none) ∧
      ji1.Tasks.lookup task.UID = some { task with Status := status } ∧
      (∃ b : tasksMap S, ji1.TaskStatusIndex.lookup status = some b ∧
        b.lookup task.UID = some { task with Status := status }) ∧
      (task.Status ≠ status → ∀ b : tasksMap S,
        ji1.TaskStatusIndex.lookup task.Status = some b → task.UID ∉ b) ∧
      ji1.Tasks.keys = ji.Tasks.keys ∧
      ji1.TotalRequest = ji.TotalRequest := by
  have hd := DeleteTaskInfo_of_le hstored htotal halloc
  have hu : UpdateTaskStatus ji task status =
      some (AddTaskInfo (deleteTaskIndex { ji with
          TotalRequest := ji.TotalRequest - task.Resreq,
          Allocated := if AllocatedStatus task.Status then ji.Allocated - task.Resreq
                       else ji.Allocated,
          Tasks := ji.Tasks.erase task.UID } task) { task with Status := status },
        { task with Status := status }, none) := by
    unfold UpdateTaskStatus
    rw [hvalid, hd]
  refine ⟨_, hu, ?_, ?_, ?_, ?_, ?_⟩
  · rw [AddTaskInfo_tasks]
    exact Finmap.lookup_insert _
  · rw [AddTaskInfo_index]
    exact ⟨_, Finmap.lookup_insert _, Finmap.lookup_insert _⟩
  · intro hne b hb
    rw [AddTaskInfo_index] at hb
    change Finmap.lookup task.Status (Finmap.insert status _ _) = some b at hb
    rw [Finmap.lookup_insert_of_ne _ hne] at hb
    obtain ⟨b0, hb0, -⟩ := hinv.task_in_bucket _ _ hstored
    rw [deleteTaskIndex_lookup { ji with
        TotalRequest := ji.TotalRequest - task.Resreq,
        Allocated := if AllocatedStatus task.Status then ji.Allocated - task.Resreq
                     else ji.Allocated,
        Tasks := ji.Tasks.erase task.UID } hb0, if_pos rfl] at hb
    by_cases he : b0.erase task.UID = ∅
    · rw [if_pos he] at hb
      simp at hb
    · rw [if_neg he] at hb
      injection hb with hb
      rw [← hb]
      exact Finmap.not_mem_erase_self
  · rw [AddTaskInfo_tasks, deleteTaskIndex_tasks]
    change (Finmap.insert task.UID _ (Finmap.erase task.UID ji.Tasks)).keys = _
    rw [keys_insert, Finmap.keys_erase, Finset.insert_erase]
    exact Finmap.mem_keys.mpr (Finmap.mem_of_lookup_eq_some hstored)
  · rw [AddTaskInfo_total, deleteTaskIndex_total]
    exact tsub_add_cancel_of_le htotal

/-- The sum over a map from which a key is erased is at most the sum over the
map. -/
theorem sumOver_erase_le {K : Type} [DecidableEq K] {V : Type} (f : K → V → Resource) (a : K)
    (m : Finmap (fun _ : K => V)) : sumOver f (m.erase a) ≤ sumOver f m := by
  cases h : m.lookup a with
  | none => rw [erase_of_lookup_none h]
  | some b =>
    rw [sumOver_of_lookup f h]
    exact le_add_self

/-- The empty job `NewJobInfo` starts from is covered. -/
theorem covered_newJobInfo_nil (uid : JobID) :
    Covered (NewJobInfo uid ([] : List (TaskInfo S))) := by
  unfold NewJobInfo
  refine ⟨?_, ?_, ?_⟩
  · intro u t h
    simp [Finmap.lookup_empty] at h
  · simp [totalResreq, sumOver_empty, EmptyResource]
  · simp [allocatedResreq, sumOver_empty, EmptyResource]

/-- `AddTaskInfo` of any task keeps a job covered. -/
theorem covered_AddTaskInfo {ji : JobInfo S} (h : Covered ji) (ti : TaskInfo S) :
    Covered (AddTaskInfo ji ti) := by
  refine ⟨?_, ?_, ?_⟩
  · intro uid t ht
    rw [AddTaskInfo_tasks] at ht
    by_cases hu : uid = ti.UID
    · subst hu
      rw [Finmap.lookup_insert] at ht
      injection ht with ht
      rw [← ht]
    · rw [Finmap.lookup_insert_of_ne _ hu] at ht
      exact h.keys uid t ht
  · rw [AddTaskInfo_tasks, AddTaskInfo_total]
    unfold totalResreq
    rw [sumOver_insert, add_comm]
    exact add_le_add_right ((sumOver_erase_le _ _ _).trans h.total) _
  · rw [AddTaskInfo_tasks, AddTaskInfo_allocated]
    unfold allocatedResreq
    rw [sumOver_insert, add_comm]
    have hle := (sumOver_erase_le (fun (_ : TaskID) (t : TaskInfo S) =>
      if AllocatedStatus t.Status then t.Resreq else 0) ti.UID ji.Tasks).trans h.allocated
    by_cases ha : AllocatedStatus ti.Status = true
    · rw [if_pos ha, if_pos ha]
      exact add_le_add_right hle _
    · rw [if_neg ha, if_neg ha, add_zero]
      exact hle

/-- The aggregates of a covered job cover the request of every stored task. -/
theorem covered_resreq_le {ji : JobInfo S} (h : Covered ji) {uid : TaskID} {task : TaskInfo S}
    (hl : ji.Tasks.lookup uid = some task) :
    task.Resreq ≤ ji.TotalRequest ∧
      (AllocatedStatus task.Status = true → task.Resreq ≤ ji.Allocated) := by
  refine ⟨?_, fun ha => ?_⟩
  · refine le_trans ?_ h.total
    rw [totalResreq_of_lookup hl]
    exact le_self_add
  · refine le_trans ?_ h.allocated
    rw [allocatedResreq_of_lookup hl, if_pos ha]
    exact le_self_add

/-- Every completed call of `DeleteTaskInfo` keeps a job covered. -/
theorem covered_DeleteTaskInfo {ji ji1 : JobInfo S} (h : Covered ji) {ti : TaskInfo S}
    {err : Option Error} (hd : DeleteTaskInfo ji ti = some (ji1, err)) : Covered ji1 := by
  cases hl : ji.Tasks.lookup ti.UID with
  | none =>
    rw [DeleteTaskInfo_of_lookup_none hl] at hd
    injection hd with hd
    injection hd with hd
    rw [← hd]
    exact h
  | some task =>
    obtain ⟨-, -, -, hji1⟩ := DeleteTaskInfo_of_lookup_some hl hd
    have hu : task.UID = ti.UID := h.keys _ _ hl
    rw [hji1]
    refine ⟨?_, ?_, ?_⟩
    · intro uid t ht
      rw [deleteTaskIndex_tasks] at ht
      change (ji.Tasks.erase task.UID).lookup uid = some t at ht
      by_cases hx : uid = task.UID
      · rw [hx, Finmap.lookup_erase] at ht
        simp at ht
      · rw [Finmap.lookup_erase_ne hx] at ht
        exact h.keys uid t ht
    · rw [deleteTaskIndex_tasks, deleteTaskIndex_total]
      change totalResreq (ji.Tasks.erase task.UID) ≤ ji.TotalRequest - task.Resreq
      have ht := h.total
      rw [totalResreq_of_lookup hl, ← hu] at ht
      exact le_tsub_of_add_le_left ht
    · rw [deleteTaskIndex_tasks, deleteTaskIndex_allocated]
      change allocatedResreq (ji.Tasks.erase task.UID) ≤
        if AllocatedStatus task.Status then ji.Allocated - task.Resreq else ji.Allocated
      have ha := h.allocated
      rw [allocatedResreq_of_lookup hl, ← hu] at ha
      by_cases hs : AllocatedStatus task.Status = true
      · rw [if_pos hs] at ha ⊢
        exact le_tsub_of_add_le_left ha
      · rw [if_neg hs, zero_add] at ha
        rw [if_neg hs]
        exact ha

/-- Every job built from `NewJobInfo` by the three operations is covered. -/
theorem Reachable.covered {ji : JobInfo S} (h : Reachable ji) : Covered ji := by
  induction h with
  | new uid tasks =>
    have hfold : ∀ (ts : List (TaskInfo S)) (j : JobInfo S), Covered j →
        Covered (ts.foldl AddTaskInfo j) := by
      intro ts
      induction ts with
      | nil =>
        intro j hj
        exact hj
      | cons t ts ih =>
        intro j hj
        rw [List.foldl_cons]
        exact ih _ (covered_AddTaskInfo hj t)
    exact hfold tasks _ (covered_newJobInfo_nil uid)
  | add ti _ ih => exact covered_AddTaskInfo ih ti
  | delete ti err _ hd ih => exact covered_DeleteTaskInfo ih hd
  | @update j j1 task task1 status err _ hu ih =>
    unfold UpdateTaskStatus at hu
    cases hv : validateStatusUpdate task.Status status with
    | some e =>
      rw [hv] at hu
      injection hu with hu
      injection hu with hu
      rw [← hu]
      exact ih
    | none =>
      rw [hv] at hu
      cases hd : DeleteTaskInfo j task with
      | none =>
        rw [hd] at hu
        simp at hu
      | some r =>
        obtain ⟨ji2, e2⟩ := r
        rw [hd] at hu
        injection hu with hu
        injection hu with hu
        rw [← hu]
        exact covered_AddTaskInfo (covered_DeleteTaskInfo ih hd) _

/-- C2: for every job built from `NewJobInfo` by the three operations that
satisfies the status-bucket invariant, every task stored in the job and every
target status for which the transition check passes, `UpdateTaskStatus` returns
no error, the task's `Status` becomes the target status (in the task left
behind and in `Tasks`), the task is in the target status's bucket and, when the
two statuses differ, no longer in its old bucket, the set of task UIDs in
`Tasks` is unchanged, and `TotalRequest` is unchanged. -/
theorem UpdateTaskStatus_spec (ji : JobInfo S) (task : TaskInfo S) (status : S)
    (hreach : Reachable ji) (hinv : StatusBucketInvariant ji)
    (hstored : ji.Tasks.lookup task.UID = some task)
    (hvalid : validateStatusUpdate task.Status status = none) :
    ∃ ji1 : JobInfo S,
      UpdateTaskStatus ji task status = some (ji1, { task with Status := status }, none) ∧
      ji1.Tasks.lookup task.UID = some { task with Status := status } ∧
      (∃ b : tasksMap S, ji1.TaskStatusIndex.lookup status = some b ∧
        b.lookup task.UID = some { task with Status := status }) ∧
      (task.Status ≠ status → ∀ b : tasksMap S,
        ji1.TaskStatusIndex.lookup task.Status = some b → task.UID ∉ b) ∧
      ji1.Tasks.keys = ji.Tasks.keys ∧
      ji1.TotalRequest = ji.TotalRequest :=
  UpdateTaskStatus_stored ji task status hinv hstored hvalid
    (covered_resreq_le hreach.covered hstored).1 (covered_resreq_le hreach.covered hstored).2

/-- The claim C2 at the job built from the pending task `t1` and the running
task `t2`, where `t1` is set to `Running`: the call returns no error, `Tasks`
holds the running task and `TotalRequest` is still two cpu. -/
theorem UpdateTaskStatus_spec_witness :
    (NewJobInfo "job" [sampleTask "t1" SampleStatus.Pending {"cpu"},
        sampleTask "t2" SampleStatus.Running {"cpu"}]).Tasks.lookup "t1" =
      some (sampleTask "t1" SampleStatus.Pending {"cpu"}) ∧
    validateStatusUpdate SampleStatus.Pending SampleStatus.Running = none ∧
    ∃ ji1 : JobInfo SampleStatus,
      UpdateTaskStatus (NewJobInfo "job" [sampleTask "t1" SampleStatus.Pending {"cpu"},
          sampleTask "t2" SampleStatus.Running {"cpu"}])
        (sampleTask "t1" SampleStatus.Pending {"cpu"}) SampleStatus.Running =
        some (ji1, sampleTask "t1" SampleStatus.Running {"cpu"}, none) ∧
      ji1.Tasks.lookup "t1" = some (sampleTask "t1" SampleStatus.Running {"cpu"}) ∧
      ji1.TotalRequest = {"cpu", "cpu"} := by
  refine ⟨by decide, by decide, ?_⟩
  obtain ⟨ji1, h1, h2, -, -, -, h6⟩ :=
    UpdateTaskStatus_spec (NewJobInfo "job" [sampleTask "t1" SampleStatus.Pending {"cpu"},
        sampleTask "t2" SampleStatus.Running {"cpu"}])
      (sampleTask "t1" SampleStatus.Pending {"cpu"}) SampleStatus.Running
      (Reachable.new "job" [sampleTask "t1" SampleStatus.Pending {"cpu"},
        sampleTask "t2" SampleStatus.Running {"cpu"}])
      (ReachableFresh.new "job" [sampleTask "t1" SampleStatus.Pending {"cpu"},
        sampleTask "t2" SampleStatus.Running {"cpu"}] (by decide)).wellFormed.buckets
      (by decide) (by decide)
  exact ⟨ji1, h1, h2, h6.trans (by decide)⟩

/-- The claim C5 fails: deleting the running task from the job that `NewJobInfo`
builds from two tasks of UID `t1` leaves a job whose `Tasks` is empty while its
`Pending` bucket still holds `t1`; adding a pending task `t1` to that job and
deleting it again returns no error but removes the `Pending` bucket, so
`TaskStatusIndex` is not restored. -/
theorem DeleteTaskInfo_AddTaskInfo_stale_bucket :
    DeleteTaskInfo (NewJobInfo "job" [sampleTask "t1" SampleStatus.Pending {"cpu"},
        sampleTask "t1" SampleStatus.Running {"cpu"}])
      (sampleTask "t1" SampleStatus.Running {"cpu"}) =
      some ({ NewJobInfo "job" [] with
        TaskStatusIndex := Finmap.singleton SampleStatus.Pending
          (Finmap.singleton "t1" (sampleTask "t1" SampleStatus.Pending {"cpu"})),
        TotalRequest := {"cpu"} }, none) ∧
    "t1" ∉ ({ NewJobInfo "job" [] with
        TaskStatusIndex := Finmap.singleton SampleStatus.Pending
          (Finmap.singleton "t1" (sampleTask "t1" SampleStatus.Pending {"cpu"})),
        TotalRequest := {"cpu"} } : JobInfo SampleStatus).Tasks ∧
    (DeleteTaskInfo
      (AddTaskInfo { NewJobInfo "job" [] with
        TaskStatusIndex := Finmap.singleton SampleStatus.Pending
          (Finmap.singleton "t1" (sampleTask "t1" SampleStatus.Pending {"cpu"})),
        TotalRequest := {"cpu"} } (sampleTask "t1" SampleStatus.Pending {"memory"}))
      (sampleTask "t1" SampleStatus.Pending {"memory"})).map
        (fun r => (r.1.TaskStatusIndex, r.2)) = some (∅, none) := by
  decide

/-- C5 (amended): for every job and every task whose UID is in neither the
job's `Tasks` nor the bucket of the task's status, that bucket being absent or
non-empty, `AddTaskInfo` followed by `DeleteTaskInfo` of that task returns no
error and restores the job, so `Tasks`, `TaskStatusIndex`, `TotalRequest` and
`Allocated` have their values before the add. -/
theorem DeleteTaskInfo_AddTaskInfo (ji : JobInfo S) (ti : TaskInfo S)
    (hfresh : ti.UID ∉ ji.Tasks)
    (hbucket : ∀ b : tasksMap S, ji.TaskStatusIndex.lookup ti.Status = some b →
      ti.UID ∉ b ∧ b ≠ ∅) :
    DeleteTaskInfo (AddTaskInfo ji ti) ti = some (ji, none) := by
  have hnone : ji.Tasks.lookup ti.UID = none := Finmap.lookup_eq_none.mpr hfresh
  have hl : (AddTaskInfo ji ti).Tasks.lookup ti.UID = some ti := by
    rw [AddTaskInfo_tasks]
    exact Finmap.lookup_insert _
  have hle : ti.Resreq ≤ (AddTaskInfo ji ti).TotalRequest := by
    rw [AddTaskInfo_total]
    exact le_add_self
  have hla : AllocatedStatus ti.Status = true → ti.Resreq ≤ (AddTaskInfo ji ti).Allocated := by
    intro ha
    rw [AddTaskInfo_allocated, if_pos ha]
    exact le_add_self
  rw [DeleteTaskInfo_of_le hl hle hla]
  have hb1 : Finmap.lookup ti.Status
      ({ AddTaskInfo ji ti with
          TotalRequest := (AddTaskInfo ji ti).TotalRequest - ti.Resreq,
          Allocated := if AllocatedStatus ti.Status
                       then (AddTaskInfo ji ti).Allocated - ti.Resreq
                       else (AddTaskInfo ji ti).Allocated,
          Tasks := (AddTaskInfo ji ti).Tasks.erase ti.UID } : JobInfo S).TaskStatusIndex =
      some (((ji.TaskStatusIndex.lookup ti.Status).getD ∅).insert ti.UID ti) := by
    change Finmap.lookup ti.Status (AddTaskInfo ji ti).TaskStatusIndex = _
    rw [AddTaskInfo_index]
    exact Finmap.lookup_insert _
  have hidx := deleteTaskIndex_index_of_some hb1
  rw [deleteTaskIndex_eq, hidx]
  refine congrArg (fun j => some (j, (none : Option Error))) ?_
  apply JobInfo.ext
  case TaskStatusIndex =>
    change (if _ then _ else _) = ji.TaskStatusIndex
    rw [AddTaskInfo_index]
    cases hb : ji.TaskStatusIndex.lookup ti.Status with
    | none =>
      have he : Finmap.erase ti.UID (Finmap.insert ti.UID ti (∅ : tasksMap S)) = ∅ :=
        erase_insert_of_lookup_none ti (Finmap.lookup_empty _)
      simp only [Option.getD_none, he, if_true]
      exact erase_insert_of_lookup_none _ hb
    | some b =>
      obtain ⟨hnb, hbne⟩ := hbucket b hb
      have he : Finmap.erase ti.UID (Finmap.insert ti.UID ti b) = b :=
        erase_insert_of_lookup_none ti (Finmap.lookup_eq_none.mpr hnb)
      simp only [Option.getD_some, he, if_neg hbne]
      rw [Finmap.insert_insert]
      apply Finmap.ext_lookup
      intro x
      by_cases hx : x = ti.Status
      · rw [hx, Finmap.lookup_insert, hb]
      · rw [Finmap.lookup_insert_of_ne _ hx]
  case Tasks =>
    change Finmap.erase ti.UID (AddTaskInfo ji ti).Tasks = ji.Tasks
    rw [AddTaskInfo_tasks]
    exact erase_insert_of_lookup_none ti hnone
  case Allocated =>
    change (if _ then _ else _) = ji.Allocated
    rw [AddTaskInfo_allocated]
    split_ifs
    · exact add_tsub_cancel_right _ _
    · rfl
  case TotalRequest =>
    change (AddTaskInfo ji ti).TotalRequest - ti.Resreq = ji.TotalRequest
    rw [AddTaskInfo_total]
    exact add_tsub_cancel_right _ _
  all_goals rw [AddTaskInfo_eq]

/-- The amended claim C5 at the job holding the pending task `t1`, to which a
second pending task `t2` is added and deleted again. -/
theorem DeleteTaskInfo_AddTaskInfo_witness :
    "t2" ∉ (NewJobInfo "job" [sampleTask "t1" SampleStatus.Pending {"cpu"}]).Tasks ∧
    DeleteTaskInfo
        (AddTaskInfo (NewJobInfo "job" [sampleTask "t1" SampleStatus.Pending {"cpu"}])
          (sampleTask "t2" SampleStatus.Pending {"memory"}))
        (sampleTask "t2" SampleStatus.Pending {"memory"}) =
      some (NewJobInfo "job" [sampleTask "t1" SampleStatus.Pending {"cpu"}], none) :=
  ⟨by decide,
    DeleteTaskInfo_AddTaskInfo
      (NewJobInfo "job" [sampleTask "t1" SampleStatus.Pending {"cpu"}])
      (sampleTask "t2" SampleStatus.Pending {"memory"}) (by decide)
      (fun b hb => by
        have h0 : Finmap.lookup SampleStatus.Pending
            (NewJobInfo "job" [sampleTask "t1" SampleStatus.Pending {"cpu"}]).TaskStatusIndex =
            some (Finmap.singleton "t1" (sampleTask "t1" SampleStatus.Pending {"cpu"})) := by
          decide
        have hb1 := hb.symm.trans h0
        injection hb1 with hb1
        subst hb1
        decide)⟩

end Contracts
end Api

/-! ## Task construction -/

namespace Api

/-- C20: for every pod, `getJobID` returns the job ID `<pod namespace>/<group
name>` when the pod carries a non-empty group-name annotation and the empty
job ID otherwise (the annotation is absent or empty), and `NewTaskInfo` sets
the `Job` field of the new task to that value. -/
theorem getJobID_eq (GroupNameAnnotationKey : String) {S : Type}
    (GetPodResourceWithoutInitContainers GetPodResourceRequest : Pod → Resource)
    (getTaskStatus : Pod → S) (pod : Pod) :
    (∀ gn : String, pod.Annotations.lookup GroupNameAnnotationKey = some gn → gn ≠ "" →
        getJobID GroupNameAnnotationKey pod = pod.Namespace ++ "/" ++ gn) ∧
      (pod.Annotations.lookup GroupNameAnnotationKey = some "" →
        getJobID GroupNameAnnotationKey pod = "") ∧
      (pod.Annotations.lookup GroupNameAnnotationKey = none →
        getJobID GroupNameAnnotationKey pod = "") ∧
      (NewTaskInfo GroupNameAnnotationKey GetPodResourceWithoutInitContainers
        GetPodResourceRequest getTaskStatus pod).Job = getJobID GroupNameAnnotationKey pod := by
  refine ⟨?_, ?_, ?_, ?_⟩
  · intro gn hgn hne
    have hlen : len pod.Annotations ≠ 0 := by
      rw [Ne, len_eq_zero_iff]
      intro he
      rw [he, Finmap.lookup_empty] at hgn
      simp at hgn
    have hgl : gn.length ≠ 0 := by
      intro h0
      apply hne
      cases gn with
      | mk data =>
        have : data = [] := List.length_eq_zero.mp h0
        rw [this]
    unfold getJobID
    rw [if_pos hlen, hgn]
    exact if_pos hgl
  · intro hgn
    unfold getJobID
    rw [hgn]
    split_ifs <;> rfl
  · intro hgn
    unfold getJobID
    rw [hgn]
    split_ifs <;> rfl
  · unfold NewTaskInfo
    cases pod.Priority <;> rfl

end Api

/-! ## The aborting state -/

namespace State

/-- C15: in the Aborting state, for every action other than Resume (the empty
action of a resync included), `Execute` calls `KillJob` with the soft retain
policy and a status mutator that, for every job status, returns true exactly
when `Terminating`, `Pending` and `Running` are all zero; when it returns true
it sets the phase to `Aborted` (and the transition time to the current time,
leaving the counters as they are), and when it returns false it leaves the
status unchanged. -/
theorem Execute_other_action {J A : Type} [DecidableEq A] (ResumeJobAction : A) (job : J)
    (action : A) (h : action ≠ ResumeJobAction) :
    ∃ fn : UpdateStatusFn,
      (∀ (R : Type) (KillJob : J → PodRetainPhase → UpdateStatusFn → R),
        Execute KillJob ResumeJobAction job action = KillJob job PodRetainPhaseSoft fn) ∧
      ∀ (now : Time) (status : JobStatus),
        ((fn now status).2 = true ↔
          status.Terminating = 0 ∧ status.Pending = 0 ∧ status.Running = 0) ∧
        ((fn now status).2 = true →
          (fn now status).1.State.Phase = JobPhase.Aborted ∧
          (fn now status).1 =
            { status with State := { Phase := JobPhase.Aborted, LastTransitionTime := now } }) ∧
        ((fn now status).2 = false → (fn now status).1 = status) := by
  refine ⟨fun now status =>
      if status.Terminating ≠ 0 ∨ status.Pending ≠ 0 ∨ status.Running ≠ 0 then
        (status, false)
      else
        ({ status with State := { Phase := JobPhase.Aborted, LastTransitionTime := now } },
          true), fun R KillJob => ?_, ?_⟩
  · unfold Execute
    rw [if_neg h]
  · intro now status
    beta_reduce
    by_cases hc : status.Terminating ≠ 0 ∨ status.Pending ≠ 0 ∨ status.Running ≠ 0
    · rw [if_pos hc]
      refine ⟨⟨fun hf => ?_, ?_⟩, fun hf => ?_, fun _ => rfl⟩
      · exact absurd hf (by simp)
      · rintro ⟨h1, h2, h3⟩
        rcases hc with hc | hc | hc
        · exact absurd h1 hc
        · exact absurd h2 hc
        · exact absurd h3 hc
      · exact absurd hf (by simp)
    · rw [if_neg hc]
      refine ⟨⟨fun _ => ?_, fun _ => rfl⟩, fun _ => ⟨rfl, rfl⟩, fun hf => ?_⟩
      · simp only [not_or, not_not] at hc
        exact hc
      · exact absurd hf (by simp)

/-- The claim C15 at the empty action, with `ResumeJob` as the resume action:
the mutator holds back a status with one running task and commits `Aborted`
on a status without live tasks. -/
theorem Execute_other_action_witness :
    ("" : String) ≠ "ResumeJob" ∧
    Execute (fun (_ : String) (p : PodRetainPhase) (fn : UpdateStatusFn) =>
        (p, fn 7 { State := { Phase := JobPhase.Aborting, LastTransitionTime := 0 },
                   Pending := 0, Running := 1, Succeeded := 0, Failed := 0,
                   Terminating := 0, RetryCount := 0 },
          fn 7 { State := { Phase := JobPhase.Aborting, LastTransitionTime := 0 },
                 Pending := 0, Running := 0, Succeeded := 2, Failed := 0,
                 Terminating := 0, RetryCount := 0 }))
      "ResumeJob" "job" "" =
      (PodRetainPhase.Soft,
        ({ State := { Phase := JobPhase.Aborting, LastTransitionTime := 0 },
           Pending := 0, Running := 1, Succeeded := 0, Failed := 0,
           Terminating := 0, RetryCount := 0 }, false),
        ({ State := { Phase := JobPhase.Aborted, LastTransitionTime := 7 },
           Pending := 0, Running := 0, Succeeded := 2, Failed := 0,
           Terminating := 0, RetryCount := 0 }, true)) := by
  refine ⟨by decide, ?_⟩
  obtain ⟨fn, hcall, -⟩ := Execute_other_action "ResumeJob" "job" "" (by decide)
  rw [hcall]
  have h2 := hcall _ (fun (_ : String) (_ : PodRetainPhase) (f : UpdateStatusFn) => f)
  rw [← h2]
  decide

/-- C16: in the Aborting state, on the Resume action, `Execute` calls `KillJob`
with the soft retain policy and a status mutator that, for every job status,
increases `RetryCount` by exactly one, leaves the phase, the transition time
and every task count unchanged, and returns false, so that the job remains in
Aborting. -/
theorem Execute_resume {J A : Type} [DecidableEq A] (ResumeJobAction : A) (job : J) :
    ∃ fn : UpdateStatusFn,
      (∀ (R : Type) (KillJob : J → PodRetainPhase → UpdateStatusFn → R),
        Execute KillJob ResumeJobAction job ResumeJobAction =
          KillJob job PodRetainPhaseSoft fn) ∧
      ∀ (now : Time) (status : JobStatus),
        (fn now status).1.RetryCount = status.RetryCount + 1 ∧
        (fn now status).1.State = status.State ∧
        (fn now status).1.Pending = status.Pending ∧
        (fn now status).1.Running = status.Running ∧
        (fn now status).1.Succeeded = status.Succeeded ∧
        (fn now status).1.Failed = status.Failed ∧
        (fn now status).1.Terminating = status.Terminating ∧
        (fn now status).2 = false := by
  refine ⟨fun _ status => ({ status with RetryCount := status.RetryCount + 1 }, false),
    fun R KillJob => ?_, ?_⟩
  · unfold Execute
    rw [if_pos rfl]
  · intro now status
    exact ⟨rfl, rfl, rfl, rfl, rfl, rfl, rfl, rfl⟩

end State

/-! ## Resource lists of the command line -/

namespace CliJob

open Api (Error len)

section Populate

variable {Q : Type} (ParseQuantity : String → Except Error Q)

theorem Split_ne_nil (s : List Char) (sep : Char) : Split s sep ≠ [] := by
  cases s with
  | nil => simp [Split]
  | cons c cs =>
    unfold Split
    split_ifs
    · simp
    · split <;> simp

/-- A string without the separator is returned whole. -/
theorem Split_of_count_zero (sep : Char) :
    ∀ s : List Char, s.count sep = 0 → Split s sep = [s] := by
  intro s
  induction s with
  | nil => intro _; rfl
  | cons c cs ih =>
    intro h
    have hc : c ≠ sep := by
      rintro rfl
      simp at h
    rw [List.count_cons_of_ne hc.symm] at h
    unfold Split
    rw [if_neg hc, ih h]

/-- A string with one separator splits into what stands before and what stands
after it. -/
theorem Split_of_count_one (sep : Char) :
    ∀ s : List Char, s.count sep = 1 →
      Split s sep = [s.takeWhile (fun c => c ≠ sep), (s.dropWhile (fun c => c ≠ sep)).drop 1] := by
  intro s
  induction s with
  | nil => intro h; simp at h
  | cons c cs ih =>
    intro h
    by_cases hc : c = sep
    · subst hc
      rw [List.count_cons_self] at h
      have h0 : cs.count c = 0 := by omega
      unfold Split
      rw [if_pos rfl, Split_of_count_zero c cs h0]
      simp
    · rw [List.count_cons_of_ne (Ne.symm hc)] at h
      unfold Split
      rw [if_neg hc, ih h]
      simp [hc]

/-- The loop returns either an error and the nil list, or no error and a list
that holds every key of the list it started from. -/
theorem populateLoop_cases :
    ∀ (statements : List (List Char)) (result : ResourceList Q),
      (∃ err : Error, populateLoop ParseQuantity statements result = (none, some err)) ∨
      (∃ m : ResourceList Q, populateLoop ParseQuantity statements result = (some m, none) ∧
        (∀ k, k ∈ result → k ∈ m) ∧ (statements ≠ [] → m ≠ ∅)) := by
  intro statements
  induction statements with
  | nil =>
    intro result
    exact Or.inr ⟨result, rfl, fun _ h => h, fun h => absurd rfl h⟩
  | cons st rest ih =>
    intro result
    unfold populateLoop
    split
    · next name value hsplit =>
      split
      · next err _ => exact Or.inl ⟨err, rfl⟩
      · next q _ =>
        rcases ih (result.insert (String.mk name) q) with ⟨err, he⟩ | ⟨m, hm, hsub, _⟩
        · exact Or.inl ⟨err, he⟩
        · refine Or.inr ⟨m, hm, fun k hk => hsub k (Finmap.mem_insert.mpr (Or.inr hk)), ?_⟩
          intro _ hempty
          have hmem : String.mk name ∈ m := hsub _ (Finmap.mem_insert.mpr (Or.inl rfl))
          rw [hempty] at hmem
          exact Finmap.not_mem_empty hmem
    · exact Or.inl ⟨_, rfl⟩

/-- The loop fails when one of its statements is not a name and a value that
parses. -/
theorem populateLoop_error :
    ∀ (statements : List (List Char)) (result : ResourceList Q),
      (∃ st ∈ statements, ∀ (name value : List Char) (q : Q),
        ¬ (Split st '=' = [name, value] ∧ ParseQuantity (String.mk value) = Except.ok q)) →
      ∃ err : Error, populateLoop ParseQuantity statements result = (none, some err) := by
  intro statements
  induction statements with
  | nil =>
    intro result h
    obtain ⟨st, hst, -⟩ := h
    simp at hst
  | cons st rest ih =>
    intro result h
    unfold populateLoop
    split
    · next name value hsplit =>
      split
      · next err _ => exact ⟨err, rfl⟩
      · next q hq =>
        apply ih
        obtain ⟨st1, hst1, hbad⟩ := h
        rcases List.mem_cons.mp hst1 with rfl | hmem
        · exact absurd ⟨hsplit, hq⟩ (hbad name value q)
        · exact ⟨st1, hmem, hbad⟩
    · exact ⟨_, rfl⟩

/-- C12: for every non-empty spec string in which some comma-separated
statement does not split on `=` into exactly two parts, or has a value that
does not parse as a quantity, `populateResourceListV1` returns an error and
the nil resource list. -/
theorem populateResourceListV1_error (spec : String) (hne : spec ≠ "")
    (hbad : ∃ st ∈ Split spec.data ',',
      (Split st '=').length ≠ 2 ∨
      ∃ (name value : List Char) (err : Error),
        Split st '=' = [name, value] ∧ ParseQuantity (String.mk value) = Except.error err) :
    ∃ err : Error, populateResourceListV1 ParseQuantity spec = (none, some err) := by
  unfold populateResourceListV1
  rw [if_neg hne]
  apply populateLoop_error
  obtain ⟨st, hst, hcase⟩ := hbad
  refine ⟨st, hst, fun name value q hgood => ?_⟩
  rcases hcase with hlen | ⟨name1, value1, err, hsplit, herr⟩
  · rw [hgood.1] at hlen
    exact hlen rfl
  · rw [hgood.1] at hsplit
    simp only [List.cons.injEq, and_true] at hsplit
    rw [hsplit.2, herr] at hgood
    exact absurd hgood.2 (by simp)

/-- The claim C12 at the spec `cpu`, which misses `=value`. -/
theorem populateResourceListV1_error_witness :
    ("cpu" : String) ≠ "" ∧
    ∃ err : Error, populateResourceListV1 sampleParseQuantity "cpu" = (none, some err) :=
  ⟨by decide,
    populateResourceListV1_error sampleParseQuantity "cpu" (by decide)
      ⟨['c', 'p', 'u'], by decide, Or.inl (by decide)⟩⟩

/-- C13: for every spec string, `populateResourceListV1` returns the nil
resource list together with no error if and only if spec is the empty string,
and every non-empty spec on which it succeeds (returns no error) yields a
non-nil list with at least one entry. -/
theorem populateResourceListV1_nil_iff (spec : String) :
    (populateResourceListV1 ParseQuantity spec = (none, none) ↔ spec = "") ∧
      (spec ≠ "" → (populateResourceListV1 ParseQuantity spec).2 = none →
        ∃ m : ResourceList Q,
          (populateResourceListV1 ParseQuantity spec).1 = some m ∧ 1 ≤ len m) := by
  unfold populateResourceListV1
  by_cases h : spec = ""
  · rw [if_pos h]
    exact ⟨⟨fun _ => h, fun _ => rfl⟩, fun hne => absurd h hne⟩
  · rw [if_neg h]
    rcases populateLoop_cases ParseQuantity (Split spec.data ',') ∅ with
      ⟨err, he⟩ | ⟨m, hm, -, hnonempty⟩
    · rw [he]
      refine ⟨⟨fun hc => ?_, fun hc => absurd hc h⟩, fun _ hc => ?_⟩
      · simp at hc
      · simp at hc
    · rw [hm]
      refine ⟨⟨fun hc => ?_, fun hc => absurd hc h⟩, fun _ _ => ⟨m, rfl, ?_⟩⟩
      · simp at hc
      · have hme : m ≠ ∅ := hnonempty (Split_ne_nil _ _)
        have : len m ≠ 0 := fun h0 => hme ((Api.len_eq_zero_iff m).mp h0)
        omega

/-- The last quantity of a name in a list of well-formed statements, from the
one of the statements after the first. -/
theorem lastQuantity_cons (st : List Char) (rest : List (List Char)) (name : String)
    (hwf : ∀ st1 ∈ rest, WellFormedStatement ParseQuantity st1) :
    lastQuantity ParseQuantity (st :: rest) name =
      match lastQuantity ParseQuantity rest name with
      | some q => some q
      | none =>
        if statementName st = name then
          match ParseQuantity (statementValue st) with
          | Except.ok q => some q
          | Except.error _ => none
        else none := by
  unfold lastQuantity
  rw [List.reverse_cons, List.find?_append]
  cases hfind : rest.reverse.find? (fun st => decide (statementName st = name)) with
  | none =>
    simp only [Option.or, List.find?_singleton]
    by_cases hn : statementName st = name
    · simp [hn]
    · simp [hn]
  | some st1 =>
    have hmem : st1 ∈ rest := List.mem_reverse.mp (List.mem_of_find?_eq_some hfind)
    obtain ⟨-, q, hq⟩ := hwf st1 hmem
    simp [Option.or, hq]

/-- On well-formed statements the loop succeeds, and the list it returns maps a
name to the quantity of the last statement with that name, or to what the list
it started from holds when no statement has that name. -/
theorem populateLoop_ok :
    ∀ (statements : List (List Char)) (result : ResourceList Q),
      (∀ st ∈ statements, WellFormedStatement ParseQuantity st) →
      ∃ m : ResourceList Q, populateLoop ParseQuantity statements result = (some m, none) ∧
        ∀ name : String, m.lookup name =
          match lastQuantity ParseQuantity statements name with
          | some q => some q
          | none => result.lookup name := by
  intro statements
  induction statements with
  | nil =>
    intro result _
    exact ⟨result, rfl, fun name => rfl⟩
  | cons st rest ih =>
    intro result hwf
    have hrest : ∀ st1 ∈ rest, WellFormedStatement ParseQuantity st1 :=
      fun st1 h => hwf st1 (List.mem_cons_of_mem st h)
    obtain ⟨hcount, q, hq⟩ := hwf st (List.mem_cons_self st rest)
    have hsplit := Split_of_count_one '=' st hcount
    obtain ⟨m, hm, hlookup⟩ := ih (result.insert (statementName st) q) hrest
    refine ⟨m, ?_, ?_⟩
    · unfold populateLoop
      rw [hsplit]
      simp only
      change (match ParseQuantity (statementValue st) with
        | Except.error err => (none, some err)
        | Except.ok resourceQuantity =>
          populateLoop ParseQuantity rest
            (result.insert (statementName st) resourceQuantity)) = _
      rw [hq]
      exact hm
    · intro name
      rw [hlookup name, lastQuantity_cons ParseQuantity st rest name hrest]
      cases lastQuantity ParseQuantity rest name with
      | some q1 => rfl
      | none =>
        by_cases hn : statementName st = name
        · subst hn
          simp [Finmap.lookup_insert, hq]
        · have hne : name ≠ statementName st := fun h => hn h.symm
          simp [hn, Finmap.lookup_insert_of_ne _ hne]

/-- The last quantity of a name in a list of well-formed statements is defined
exactly when a statement of the list has that name. -/
theorem lastQuantity_isSome (statements : List (List Char)) (name : String)
    (hwf : ∀ st ∈ statements, WellFormedStatement ParseQuantity st) :
    (∃ q : Q, lastQuantity ParseQuantity statements name = some q) ↔
      ∃ st ∈ statements, statementName st = name := by
  unfold lastQuantity
  cases hfind : statements.reverse.find? (fun st => decide (statementName st = name)) with
  | none =>
    constructor
    · rintro ⟨q, hq⟩
      simp at hq
    · rintro ⟨st, hst, hn⟩
      rw [List.find?_eq_none] at hfind
      exact absurd (by simpa using hn) (hfind st (List.mem_reverse.mpr hst))
  | some st1 =>
    have hmem : st1 ∈ statements := List.mem_reverse.mp (List.mem_of_find?_eq_some hfind)
    have hp := List.find?_some hfind
    obtain ⟨-, q, hq⟩ := hwf st1 hmem
    simp only [hq]
    exact ⟨fun _ => ⟨st1, hmem, by simpa using hp⟩, fun _ => ⟨q, rfl⟩⟩

/-- C14: for every spec that is a comma-separated list of statements each
containing exactly one `=` and a value that parses as a quantity,
`populateResourceListV1` returns no error and a resource list whose keys are
exactly the names occurring in spec, each mapped to the parsed quantity of the
last statement with that name. -/
theorem populateResourceListV1_ok (spec : String)
    (hwf : ∀ st ∈ Split spec.data ',', WellFormedStatement ParseQuantity st) :
    ∃ m : ResourceList Q, populateResourceListV1 ParseQuantity spec = (some m, none) ∧
      (∀ name : String, name ∈ m ↔ ∃ st ∈ Split spec.data ',', statementName st = name) ∧
      (∀ name : String,
        m.lookup name = lastQuantity ParseQuantity (Split spec.data ',') name) := by
  have hne : spec ≠ "" := by
    rintro rfl
    obtain ⟨hcount, -⟩ := hwf [] (by decide)
    simp at hcount
  obtain ⟨m, hm, hlookup⟩ := populateLoop_ok ParseQuantity (Split spec.data ',') ∅ hwf
  have hl : ∀ name : String,
      m.lookup name = lastQuantity ParseQuantity (Split spec.data ',') name := by
    intro name
    rw [hlookup name]
    cases lastQuantity ParseQuantity (Split spec.data ',') name with
    | some q => rfl
    | none => exact Finmap.lookup_empty name
  refine ⟨m, ?_, ?_, hl⟩
  · unfold populateResourceListV1
    rw [if_neg hne]
    exact hm
  · intro name
    rw [Finmap.mem_iff, ← lastQuantity_isSome ParseQuantity _ name hwf]
    constructor
    · rintro ⟨q, hq⟩
      exact ⟨q, (hl name).symm.trans hq⟩
    · rintro ⟨q, hq⟩
      exact ⟨q, (hl name).trans hq⟩

/-- The claim C14 at the spec `cpu=1,mem=2,cpu=3`: the list maps `cpu` to 3 and
`mem` to 2. -/
theorem populateResourceListV1_ok_witness :
    ∃ m : ResourceList Nat,
      populateResourceListV1 sampleParseQuantity "cpu=1,mem=2,cpu=3" = (some m, none) ∧
      m.lookup "cpu" = some 3 ∧ m.lookup "mem" = some 2 ∧ m.lookup "gpu" = none := by
  obtain ⟨m, hm, -, hl⟩ :=
    populateResourceListV1_ok sampleParseQuantity "cpu=1,mem=2,cpu=3" (by
      intro st hst
      have hcases : st = ['c', 'p', 'u', '=', '1'] ∨ st = ['m', 'e', 'm', '=', '2'] ∨
          st = ['c', 'p', 'u', '=', '3'] := by
        have hs : Split ("cpu=1,mem=2,cpu=3" : String).data ',' =
            [['c', 'p', 'u', '=', '1'], ['m', 'e', 'm', '=', '2'],
              ['c', 'p', 'u', '=', '3']] := by decide
        rw [hs] at hst
        simpa using hst
      rcases hcases with rfl | rfl | rfl
      · exact ⟨by decide, 1, by rfl⟩
      · exact ⟨by decide, 2, by rfl⟩
      · exact ⟨by decide, 3, by rfl⟩)
  exact ⟨m, hm, (hl "cpu").trans (by decide), (hl "mem").trans (by decide),
    (hl "gpu").trans (by decide)⟩

end Populate

end CliJob

/-! ## The resync loop -/

namespace JobController

open Api (Error Pod)

section Resync

variable {C : Type} (env : Collaborators C)

theorem processResyncTask_nil (cc : Controller C) (hq : cc.errTasks.queue = []) :
    processResyncTask env cc = cc := by
  unfold processResyncTask RateLimitingQueue.Get
  rw [hq]

/-- The step of the loop on a task that was requeued more than 10 times. -/
theorem processResyncTask_forget (cc : Controller C) (item : Pod) (rest : List Pod)
    (hq : cc.errTasks.queue = item :: rest) (h : cc.errTasks.NumRequeues item > 10) :
    processResyncTask env cc =
      { cc with errTasks := { queue := rest, requeues := cc.errTasks.requeues.erase item } } := by
  unfold processResyncTask RateLimitingQueue.Get
  rw [hq]
  simp only
  rw [if_pos (by exact h)]
  rfl

/-- The step of the loop on a task that was requeued at most 10 times and whose
sync returns no error. -/
theorem processResyncTask_synced (cc : Controller C) (item : Pod) (rest : List Pod)
    (hq : cc.errTasks.queue = item :: rest) (h : ¬ cc.errTasks.NumRequeues item > 10)
    (hs : (syncTask env cc.cache item).2 = none) :
    processResyncTask env cc =
      { errTasks := { queue := rest, requeues := cc.errTasks.requeues },
        cache := (syncTask env cc.cache item).1,
        syncCalls := cc.syncCalls ++ [item] } := by
  unfold processResyncTask RateLimitingQueue.Get
  rw [hq]
  simp only
  rw [if_neg (by exact h), hs]
  rfl

/-- The step of the loop on a task that was requeued at most 10 times and whose
sync returns an error. -/
theorem processResyncTask_failed (cc : Controller C) (item : Pod) (rest : List Pod)
    (hq : cc.errTasks.queue = item :: rest) (h : ¬ cc.errTasks.NumRequeues item > 10)
    (hs : (syncTask env cc.cache item).2 ≠ none) :
    processResyncTask env cc =
      resyncTask
        { errTasks := { queue := rest, requeues := cc.errTasks.requeues },
          cache := (syncTask env cc.cache item).1,
          syncCalls := cc.syncCalls ++ [item] } item := by
  unfold processResyncTask RateLimitingQueue.Get
  rw [hq]
  simp only
  rw [if_neg (by exact h)]
  cases hr : (syncTask env cc.cache item).2 with
  | none => exact absurd hr hs
  | some err => rfl

theorem NumRequeues_AddRateLimited_self (q : RateLimitingQueue) (item : Pod) :
    (q.AddRateLimited item).NumRequeues item = q.NumRequeues item + 1 := by
  simp [RateLimitingQueue.AddRateLimited, RateLimitingQueue.NumRequeues, Finmap.lookup_insert]

theorem NumRequeues_AddRateLimited_of_ne (q : RateLimitingQueue) {item x : Pod}
    (h : item ≠ x) : (q.AddRateLimited x).NumRequeues item = q.NumRequeues item := by
  simp [RateLimitingQueue.AddRateLimited, RateLimitingQueue.NumRequeues,
    Finmap.lookup_insert_of_ne _ h]

/-- A step of the loop on another task leaves the bookkeeping of `item` as it
is. -/
theorem processResyncTask_other (cc : Controller C) (item x : Pod) (rest : List Pod)
    (hq : cc.errTasks.queue = x :: rest) (hx : item ≠ x) :
    (processResyncTask env cc).errTasks.queue.count item = cc.errTasks.queue.count item ∧
      (item ∈ (processResyncTask env cc).errTasks.queue ↔ item ∈ cc.errTasks.queue) ∧
      (processResyncTask env cc).errTasks.NumRequeues item = cc.errTasks.NumRequeues item ∧
      (processResyncTask env cc).syncCalls.count item = cc.syncCalls.count item := by
  have hcount : cc.errTasks.queue.count item = rest.count item := by
    rw [hq, List.count_cons_of_ne hx]
  have hsingle : List.count item [x] = 0 := by
    rw [List.count_cons_of_ne hx]
    rfl
  have hmem : item ∈ cc.errTasks.queue ↔ item ∈ rest := by
    rw [hq, List.mem_cons]
    exact ⟨fun h => h.resolve_left hx, Or.inr⟩
  rw [hcount, hmem]
  by_cases h10 : cc.errTasks.NumRequeues x > 10
  · rw [processResyncTask_forget env cc x rest hq h10]
    refine ⟨rfl, Iff.rfl, ?_, rfl⟩
    simp [RateLimitingQueue.NumRequeues, Finmap.lookup_erase_ne hx]
  · by_cases hs : (syncTask env cc.cache x).2 = none
    · rw [processResyncTask_synced env cc x rest hq h10 hs]
      refine ⟨rfl, Iff.rfl, rfl, ?_⟩
      simp [List.count_append, hsingle]
    · rw [processResyncTask_failed env cc x rest hq h10 hs]
      refine ⟨?_, ?_, ?_, ?_⟩
      · simp only [resyncTask, RateLimitingQueue.AddRateLimited]
        split_ifs
        · rfl
        · simp [List.count_append, hsingle]
      · simp only [resyncTask, RateLimitingQueue.AddRateLimited]
        split_ifs
        · exact Iff.rfl
        · simp [hx]
      · simp only [resyncTask]
        rw [NumRequeues_AddRateLimited_of_ne _ hx]
        rfl
      · simp [resyncTask, List.count_append, hsingle]

/-- A step of the loop keeps the bookkeeping of a task whose sync always
fails. -/
theorem Tracked.step (item : Pod) (hfail : ∀ cache : C, (syncTask env cache item).2 ≠ none)
    (cc : Controller C) (h : Tracked item cc) : Tracked item (processResyncTask env cc) := by
  cases hq : cc.errTasks.queue with
  | nil =>
    rw [processResyncTask_nil env cc hq]
    exact h
  | cons x rest =>
    by_cases hx : item = x
    · subst hx
      obtain ⟨hone, hcase⟩ := h
      have hin : item ∈ cc.errTasks.queue := by
        rw [hq]
        exact List.mem_cons_self _ _
      have hrest : item ∉ rest := by
        intro hmem
        rw [hq, List.count_cons_self] at hone
        have := List.count_pos_iff.mpr hmem
        omega
      rcases hcase with ⟨-, hcalls, hle⟩ | ⟨hnot, -, -⟩
      · by_cases h10 : cc.errTasks.NumRequeues item > 10
        · rw [processResyncTask_forget env cc item rest hq h10]
          refine ⟨?_, Or.inr ⟨hrest, ?_, ?_⟩⟩
          · show rest.count item ≤ 1
            rw [List.count_eq_zero_of_not_mem hrest]
            omega
          · simp [RateLimitingQueue.NumRequeues, Finmap.lookup_erase]
          · show cc.syncCalls.count item ≤ 10
            omega
        · rw [processResyncTask_failed env cc item rest hq h10 (hfail _)]
          have hqueue : (resyncTask
              ({ errTasks := { queue := rest, requeues := cc.errTasks.requeues },
                 cache := (syncTask env cc.cache item).1,
                 syncCalls := cc.syncCalls ++ [item] } : Controller C) item).errTasks.queue =
              rest ++ [item] := by
            simp [resyncTask, RateLimitingQueue.AddRateLimited, hrest]
          have hnum : (resyncTask
              ({ errTasks := { queue := rest, requeues := cc.errTasks.requeues },
                 cache := (syncTask env cc.cache item).1,
                 syncCalls := cc.syncCalls ++ [item] } : Controller C) item).errTasks.NumRequeues
                item = cc.errTasks.NumRequeues item + 1 := by
            simp only [resyncTask]
            rw [NumRequeues_AddRateLimited_self]
            rfl
          have hsync : (resyncTask
              ({ errTasks := { queue := rest, requeues := cc.errTasks.requeues },
                 cache := (syncTask env cc.cache item).1,
                 syncCalls := cc.syncCalls ++ [item] } : Controller C) item).syncCalls.count item =
              cc.syncCalls.count item + 1 := by
            simp [resyncTask, List.count_append]
          refine ⟨?_, Or.inl ⟨?_, ?_, ?_⟩⟩
          · rw [hqueue, List.count_append, List.count_eq_zero_of_not_mem hrest]
            simp
          · rw [hqueue]
            simp
          · rw [hnum, hsync, hcalls]
          · rw [hnum]
            omega
      · exact absurd hin hnot
    · obtain ⟨h1, h2, h3, h4⟩ := processResyncTask_other env cc item x rest hq hx
      unfold Tracked
      rw [h1, h2, h3, h4]
      exact h

/-- Any number of steps keeps the bookkeeping of a task whose sync always
fails. -/
theorem Tracked.iterate (item : Pod) (hfail : ∀ cache : C, (syncTask env cache item).2 ≠ none)
    (n : Nat) : ∀ cc : Controller C, Tracked item cc →
      Tracked item ((processResyncTask env)^[n] cc) := by
  induction n with
  | zero =>
    intro cc h
    exact h
  | succ n ih =>
    intro cc h
    rw [Function.iterate_succ_apply]
    exact ih _ (Tracked.step env item hfail cc h)

/-- C17: for every item that enters the resync queue through `resyncTask` (it
neither waits in the queue nor has a requeue counter before) and whose sync
always fails, any number of calls of `processResyncTask` makes at most 10 sync
attempts on it; and whenever the item is delivered with a requeue count above
10, `processResyncTask` forgets it (drops its counter), attempts no sync (the
record of sync calls and the cache are as before) and does not requeue it (the
queue is left with the items that waited behind it). -/
theorem processResyncTask_bound (cc0 : Controller C) (item : Pod)
    (hfail : ∀ cache : C, (syncTask env cache item).2 ≠ none)
    (hqueue : item ∉ cc0.errTasks.queue) (hcount : cc0.errTasks.NumRequeues item = 0)
    (hcalls : item ∉ cc0.syncCalls) :
    (∀ n : Nat,
        ((processResyncTask env)^[n] (resyncTask cc0 item)).syncCalls.count item ≤ 10) ∧
      ∀ (cc : Controller C) (rest : List Pod), cc.errTasks.queue = item :: rest →
        cc.errTasks.NumRequeues item > 10 →
        processResyncTask env cc =
          { cc with errTasks :=
              { queue := rest, requeues := cc.errTasks.requeues.erase item } } := by
  refine ⟨fun n => ?_, fun cc rest hq h => processResyncTask_forget env cc item rest hq h⟩
  have h0 : Tracked item (resyncTask cc0 item) := by
    refine ⟨?_, Or.inl ⟨?_, ?_, ?_⟩⟩
    · simp [resyncTask, RateLimitingQueue.AddRateLimited, hqueue, List.count_append,
        List.count_eq_zero_of_not_mem hqueue]
    · simp [resyncTask, RateLimitingQueue.AddRateLimited, hqueue]
    · simp only [resyncTask]
      rw [NumRequeues_AddRateLimited_self, hcount, List.count_eq_zero_of_not_mem hcalls]
    · simp only [resyncTask]
      rw [NumRequeues_AddRateLimited_self, hcount]
      omega
  obtain ⟨-, hcase⟩ := Tracked.iterate env item hfail n _ h0
  rcases hcase with ⟨-, h1, h2⟩ | ⟨-, -, h3⟩
  · omega
  · exact h3

end Resync

/-- The claim C17 at the pod `lost`, whose fetch always fails, added to an
empty queue: 15 calls of `processResyncTask` call `syncTask` on it at most 10
times. -/
theorem processResyncTask_bound_witness :
    samplePod "lost" ∉ ([] : List Pod) ∧
    (((processResyncTask sampleCollaborators)^[15]
      (resyncTask { errTasks := { queue := [], requeues := ∅ }, cache := [], syncCalls := [] }
        (samplePod "lost"))).syncCalls.count (samplePod "lost") ≤ 10) :=
  ⟨by decide,
    (processResyncTask_bound sampleCollaborators
      { errTasks := { queue := [], requeues := ∅ }, cache := [], syncCalls := [] }
      (samplePod "lost")
      (fun cache => by simp [syncTask, sampleCollaborators, samplePod])
      (by decide) (by decide) (by decide)).1 15⟩

end JobController

namespace JobController

open Api (Error Pod)

/-- C18: for every task, `syncTask` deletes the task from the cache and returns
no error when the fetch reports not-found and the cache delete succeeds;
returns an error and the cache as it was on any other fetch error; and on a
successful fetch returns the result of updating the cache with the fetched pod.
`processResyncTask`, on a task it calls `syncTask` on (one requeued at most 10
times), re-enqueues the task with backoff exactly when `syncTask` returns an
error: after an error the task waits in the queue again (behind the tasks that
waited already) and its requeue counter is one higher, and after a sync without
error the queue holds the tasks that waited behind it and the counters are as
before; a task requeued more than 10 times is forgotten without a call of
`syncTask` and is not re-enqueued. -/
theorem syncTask_outcomes {C : Type} (env : Collaborators C) (cache : C) (oldTask : Pod) :
    (∀ (err : Error) (cache1 : C), env.Get oldTask = Except.error err →
        env.IsNotFound err = true → env.DeletePod cache oldTask = (cache1, none) →
        syncTask env cache oldTask = (cache1, none)) ∧
      (∀ err : Error, env.Get oldTask = Except.error err → env.IsNotFound err = false →
        ∃ e : Error, syncTask env cache oldTask = (cache, some e)) ∧
      (∀ newPod : Pod, env.Get oldTask = Except.ok newPod →
        syncTask env cache oldTask = env.UpdatePod cache newPod) ∧
      (∀ (cc : Controller C) (rest : List Pod), cc.cache = cache →
        cc.errTasks.queue = oldTask :: rest →
        processResyncTask env cc =
          if cc.errTasks.NumRequeues oldTask > 10 then
            { cc with errTasks :=
                { queue := rest, requeues := cc.errTasks.requeues.erase oldTask } }
          else if (syncTask env cache oldTask).2 = none then
            { errTasks := { queue := rest, requeues := cc.errTasks.requeues },
              cache := (syncTask env cache oldTask).1,
              syncCalls := cc.syncCalls ++ [oldTask] }
          else
            { errTasks :=
                { queue := if oldTask ∈ rest then rest else rest ++ [oldTask],
                  requeues := cc.errTasks.requeues.insert oldTask
                    (cc.errTasks.NumRequeues oldTask + 1) },
              cache := (syncTask env cache oldTask).1,
              syncCalls := cc.syncCalls ++ [oldTask] }) ∧
      ∀ (cc : Controller C) (rest : List Pod), cc.cache = cache →
        cc.errTasks.queue = oldTask :: rest → ¬ cc.errTasks.NumRequeues oldTask > 10 →
        ((syncTask env cache oldTask).2 ≠ none →
          oldTask ∈ (processResyncTask env cc).errTasks.queue ∧
          (processResyncTask env cc).errTasks.NumRequeues oldTask =
            cc.errTasks.NumRequeues oldTask + 1) ∧
        ((syncTask env cache oldTask).2 = none →
          (processResyncTask env cc).errTasks.queue = rest ∧
          (processResyncTask env cc).errTasks.NumRequeues oldTask =
            cc.errTasks.NumRequeues oldTask) := by
  refine ⟨?_, ?_, ?_, ?_, ?_⟩
  · intro err cache1 hget hnf hdel
    unfold syncTask
    rw [hget]
    simp only [hnf, if_true]
    rw [hdel]
  · intro err hget hnf
    unfold syncTask
    rw [hget]
    simp only [hnf]
    exact ⟨_, rfl⟩
  · intro newPod hget
    unfold syncTask
    rw [hget]
  · intro cc rest hc hq
    subst hc
    by_cases h10 : cc.errTasks.NumRequeues oldTask > 10
    · rw [if_pos h10]
      exact processResyncTask_forget env cc oldTask rest hq h10
    · rw [if_neg h10]
      by_cases hs : (syncTask env cc.cache oldTask).2 = none
      · rw [if_pos hs]
        exact processResyncTask_synced env cc oldTask rest hq h10 hs
      · rw [if_neg hs]
        rw [processResyncTask_failed env cc oldTask rest hq h10 hs]
        rfl
  · intro cc rest hc hq h10
    subst hc
    refine ⟨fun hs => ?_, fun hs => ?_⟩
    · rw [processResyncTask_failed env cc oldTask rest hq h10 hs]
      refine ⟨?_, ?_⟩
      · simp only [resyncTask, RateLimitingQueue.AddRateLimited]
        split_ifs with hmem
        · exact hmem
        · simp
      · simp only [resyncTask]
        rw [NumRequeues_AddRateLimited_self]
        rfl
    · rw [processResyncTask_synced env cc oldTask rest hq h10 hs]
      exact ⟨rfl, rfl⟩

end JobController

/-! ## Cloning a job -/

namespace Api

section CloneLemmas

variable {S : Type} [DecidableEq S] [TaskStatusDecl S]

theorem TaskInfo.Clone_eq (ti : TaskInfo S) : ti.Clone = ti := rfl

/-- The values a `range` loop over a task map visits are the tasks the map
holds under some key. -/
theorem IsRangeOrder.mem_iff {order : List (TaskInfo S)} {tasks : tasksMap S}
    (h : IsRangeOrder order tasks) (t : TaskInfo S) :
    t ∈ order ↔ ∃ k : TaskID, tasks.lookup k = some t := by
  have hm : t ∈ order ↔ t ∈ (order : Multiset (TaskInfo S)) := Multiset.mem_coe.symm
  rw [hm, h, Multiset.mem_map]
  constructor
  · rintro ⟨e, he, rfl⟩
    exact ⟨e.1, Finmap.lookup_eq_some_iff.mpr he⟩
  · rintro ⟨k, hk⟩
    exact ⟨⟨k, t⟩, Finmap.lookup_eq_some_iff.mp hk, rfl⟩

/-- `AddTaskInfo` of any task keeps every task of `Tasks` stored under its own
UID and held by the bucket of its status. -/
theorem AddTaskInfo_stored (ji : JobInfo S) (ti : TaskInfo S)
    (h : ∀ (uid : TaskID) (t : TaskInfo S), ji.Tasks.lookup uid = some t →
      t.UID = uid ∧ ∃ b : tasksMap S,
        ji.TaskStatusIndex.lookup t.Status = some b ∧ b.lookup uid = some t) :
    ∀ (uid : TaskID) (t : TaskInfo S), (AddTaskInfo ji ti).Tasks.lookup uid = some t →
      t.UID = uid ∧ ∃ b : tasksMap S,
        (AddTaskInfo ji ti).TaskStatusIndex.lookup t.Status = some b ∧
          b.lookup uid = some t := by
  intro uid t ht
  rw [AddTaskInfo_tasks] at ht
  rw [AddTaskInfo_index]
  by_cases hu : uid = ti.UID
  · subst hu
    rw [Finmap.lookup_insert] at ht
    injection ht with ht
    subst ht
    exact ⟨rfl, _, Finmap.lookup_insert _, Finmap.lookup_insert _⟩
  · rw [Finmap.lookup_insert_of_ne _ hu] at ht
    obtain ⟨hk, b, hb, hbt⟩ := h uid t ht
    refine ⟨hk, ?_⟩
    by_cases hs : t.Status = ti.Status
    · refine ⟨_, by rw [hs]; exact Finmap.lookup_insert _, ?_⟩
      rw [← hs, hb, Finmap.lookup_insert_of_ne _ hu]
      exact hbt
    · exact ⟨b, by rw [Finmap.lookup_insert_of_ne _ hs]; exact hb, hbt⟩

/-- The loop of `Clone`: what the job it builds holds, in terms of the job it
starts from and the tasks it visits. -/
theorem cloneLoop_spec (order : List (TaskInfo S)) :
    ∀ info : JobInfo S,
      (∀ (uid : TaskID) (t : TaskInfo S), info.Tasks.lookup uid = some t →
        t.UID = uid ∧ ∃ b : tasksMap S,
          info.TaskStatusIndex.lookup t.Status = some b ∧ b.lookup uid = some t) →
      (∀ (uid : TaskID) (t : TaskInfo S),
        (order.foldl (fun info task => AddTaskInfo info task.Clone) info).Tasks.lookup uid =
          some t →
        (t.UID = uid ∧ ∃ b : tasksMap S,
          (order.foldl (fun info task => AddTaskInfo info task.Clone)
            info).TaskStatusIndex.lookup t.Status = some b ∧ b.lookup uid = some t) ∧
        (t ∈ order ∨ info.Tasks.lookup uid = some t)) ∧
      (∀ uid : TaskID,
        uid ∈ (order.foldl (fun info task => AddTaskInfo info task.Clone) info).Tasks ↔
          uid ∈ info.Tasks ∨ ∃ t ∈ order, t.UID = uid) ∧
      (order.foldl (fun info task => AddTaskInfo info task.Clone) info).UID = info.UID ∧
      (order.foldl (fun info task => AddTaskInfo info task.Clone) info).Name = info.Name ∧
      (order.foldl (fun info task => AddTaskInfo info task.Clone) info).Namespace =
        info.Namespace ∧
      (order.foldl (fun info task => AddTaskInfo info task.Clone) info).Queue = info.Queue ∧
      (order.foldl (fun info task => AddTaskInfo info task.Clone) info).Priority =
        info.Priority ∧
      (order.foldl (fun info task => AddTaskInfo info task.Clone) info).MinAvailable =
        info.MinAvailable := by
  induction order with
  | nil =>
    intro info h
    refine ⟨fun uid t ht => ⟨h uid t ht, Or.inr ht⟩, fun uid => ?_, rfl, rfl, rfl, rfl, rfl, rfl⟩
    simp
  | cons task rest ih =>
    intro info h
    rw [List.foldl_cons, TaskInfo.Clone_eq]
    obtain ⟨h1, h2, h3, h4, h5, h6, h7, h8⟩ :=
      ih (AddTaskInfo info task) (AddTaskInfo_stored info task h)
    have hf := AddTaskInfo_eq info task
    refine ⟨?_, ?_, ?_, ?_, ?_, ?_, ?_, ?_⟩
    · intro uid t ht
      obtain ⟨hst, hor⟩ := h1 uid t ht
      refine ⟨hst, ?_⟩
      rcases hor with hmem | hold
      · exact Or.inl (List.mem_cons_of_mem _ hmem)
      · rw [AddTaskInfo_tasks] at hold
        by_cases hu : uid = task.UID
        · subst hu
          rw [Finmap.lookup_insert] at hold
          injection hold with hold
          subst hold
          exact Or.inl (List.mem_cons_self _ _)
        · rw [Finmap.lookup_insert_of_ne _ hu] at hold
          exact Or.inr hold
    · intro uid
      rw [h2 uid, AddTaskInfo_tasks, Finmap.mem_insert]
      constructor
      · rintro ((rfl | hmem) | ⟨t, ht, rfl⟩)
        · exact Or.inr ⟨task, List.mem_cons_self _ _, rfl⟩
        · exact Or.inl hmem
        · exact Or.inr ⟨t, List.mem_cons_of_mem _ ht, rfl⟩
      · rintro (hmem | ⟨t, ht, rfl⟩)
        · exact Or.inl (Or.inr hmem)
        · rcases List.mem_cons.mp ht with rfl | ht
          · exact Or.inl (Or.inl rfl)
          · exact Or.inr ⟨t, ht, rfl⟩
    · rw [h3, hf]
    · rw [h4, hf]
    · rw [h5, hf]
    · rw [h6, hf]
    · rw [h7, hf]
    · rw [h8, hf]

/-- C11: for every job satisfying the status-bucket invariant, and whatever the
order in which the loop of `Clone` visits the tasks, `Clone` returns a job with
the same `UID`, `Name`, `Namespace`, `Queue`, `Priority` and `MinAvailable` and
the same set of task UIDs, in which every task is stored under its UID, is
field-for-field equal to a task of the original and sits in the bucket of its
status, as it does in the original. When the original stores every task under
the task's own UID, as every job built by the operations does, `Tasks` of the
clone is `Tasks` of the original, and every task sits, under its UID, in the
clone's bucket of its status. -/
theorem Clone_spec (ji : JobInfo S) (order : List (TaskInfo S))
    (hinv : StatusBucketInvariant ji) (horder : IsRangeOrder order ji.Tasks) :
    ((ji.Clone order).UID = ji.UID ∧ (ji.Clone order).Name = ji.Name ∧
      (ji.Clone order).Namespace = ji.Namespace ∧ (ji.Clone order).Queue = ji.Queue ∧
      (ji.Clone order).Priority = ji.Priority ∧
      (ji.Clone order).MinAvailable = ji.MinAvailable) ∧
    (∀ uid : TaskID, uid ∈ (ji.Clone order).Tasks ↔
      ∃ (k : TaskID) (t : TaskInfo S), ji.Tasks.lookup k = some t ∧ t.UID = uid) ∧
    (∀ (uid : TaskID) (t : TaskInfo S), (ji.Clone order).Tasks.lookup uid = some t →
      t.UID = uid ∧
      (∃ (k : TaskID) (b : tasksMap S), ji.Tasks.lookup k = some t ∧
        ji.TaskStatusIndex.lookup t.Status = some b ∧ b.lookup k = some t) ∧
      (∃ b : tasksMap S, (ji.Clone order).TaskStatusIndex.lookup t.Status = some b ∧
        b.lookup uid = some t)) ∧
    ((∀ (uid : TaskID) (t : TaskInfo S), ji.Tasks.lookup uid = some t → t.UID = uid) →
      (ji.Clone order).Tasks = ji.Tasks ∧
      ∀ (uid : TaskID) (t : TaskInfo S), ji.Tasks.lookup uid = some t →
        ∃ b : tasksMap S, (ji.Clone order).TaskStatusIndex.lookup t.Status = some b ∧
          b.lookup uid = some t) := by
  obtain ⟨h1, h2, h3, h4, h5, h6, h7, h8⟩ := cloneLoop_spec order
    { UID := ji.UID, Name := ji.Name, Namespace := ji.Namespace, Queue := ji.Queue,
      Priority := ji.Priority, MinAvailable := ji.MinAvailable,
      NodeSelector := ji.NodeSelector, Allocated := EmptyResource,
      TotalRequest := EmptyResource, JobFitErrors := "", TaskStatusIndex := ∅, Tasks := ∅,
      CreationTimestamp := ji.CreationTimestamp }
    (by
      intro uid t ht
      simp [Finmap.lookup_empty] at ht)
  have hkeys : ∀ uid : TaskID, uid ∈ (ji.Clone order).Tasks ↔
      ∃ (k : TaskID) (t : TaskInfo S), ji.Tasks.lookup k = some t ∧ t.UID = uid := by
    intro uid
    unfold JobInfo.Clone
    rw [h2 uid]
    constructor
    · rintro (hmem | ⟨t, ht, rfl⟩)
      · exact absurd hmem (Finmap.not_mem_empty)
      · obtain ⟨k, hk⟩ := (horder.mem_iff t).mp ht
        exact ⟨k, t, hk, rfl⟩
    · rintro ⟨k, t, hk, rfl⟩
      exact Or.inr ⟨t, (horder.mem_iff t).mpr ⟨k, hk⟩, rfl⟩
  have hstored : ∀ (uid : TaskID) (t : TaskInfo S),
      (ji.Clone order).Tasks.lookup uid = some t →
      t.UID = uid ∧
      (∃ (k : TaskID) (b : tasksMap S), ji.Tasks.lookup k = some t ∧
        ji.TaskStatusIndex.lookup t.Status = some b ∧ b.lookup k = some t) ∧
      (∃ b : tasksMap S, (ji.Clone order).TaskStatusIndex.lookup t.Status = some b ∧
        b.lookup uid = some t) := by
    intro uid t ht
    obtain ⟨⟨hu, hb⟩, hor⟩ := h1 uid t ht
    refine ⟨hu, ?_, hb⟩
    rcases hor with hmem | hold
    · obtain ⟨k, hk⟩ := (horder.mem_iff t).mp hmem
      obtain ⟨b, hb1, hb2⟩ := hinv.task_in_bucket k t hk
      exact ⟨k, b, hk, hb1, hb2⟩
    · simp [Finmap.lookup_empty] at hold
  refine ⟨⟨h3, h4, h5, h6, h7, h8⟩, hkeys, hstored, ?_⟩
  intro hown
  have htasks : (ji.Clone order).Tasks = ji.Tasks := by
    apply Finmap.ext_lookup
    intro x
    cases hx : ji.Tasks.lookup x with
    | none =>
      rw [Finmap.lookup_eq_none, hkeys x]
      rintro ⟨k, t, hk, rfl⟩
      rw [hown k t hk, hk] at hx
      simp at hx
    | some t =>
      have hmem : x ∈ (ji.Clone order).Tasks := (hkeys x).mpr ⟨x, t, hx, hown x t hx⟩
      obtain ⟨t1, ht1⟩ := Finmap.mem_iff.mp hmem
      obtain ⟨hu1, ⟨k, -, hk, -, -⟩, -⟩ := hstored x t1 ht1
      rw [ht1]
      have hkx : k = x := (hown k t1 hk).symm.trans hu1
      rw [hkx, hx] at hk
      exact hk.symm
  refine ⟨htasks, fun uid t ht => ?_⟩
  rw [← htasks] at ht
  exact (hstored uid t ht).2.2

end CloneLemmas

/-- The claim C11 at the job built from a pending and a running task, with the
loop of `Clone` visiting the running task first. -/
theorem Clone_spec_witness :
    IsRangeOrder [sampleTask "t2" SampleStatus.Running {"cpu"},
        sampleTask "t1" SampleStatus.Pending {"cpu"}]
      (NewJobInfo "job" [sampleTask "t1" SampleStatus.Pending {"cpu"},
        sampleTask "t2" SampleStatus.Running {"cpu"}]).Tasks ∧
    ((NewJobInfo "job" [sampleTask "t1" SampleStatus.Pending {"cpu"},
        sampleTask "t2" SampleStatus.Running {"cpu"}]).Clone
      [sampleTask "t2" SampleStatus.Running {"cpu"},
        sampleTask "t1" SampleStatus.Pending {"cpu"}]).UID = "job" ∧
    ∀ uid : TaskID,
      uid ∈ ((NewJobInfo "job" [sampleTask "t1" SampleStatus.Pending {"cpu"},
          sampleTask "t2" SampleStatus.Running {"cpu"}]).Clone
        [sampleTask "t2" SampleStatus.Running {"cpu"},
          sampleTask "t1" SampleStatus.Pending {"cpu"}]).Tasks ↔
      ∃ (k : TaskID) (t : TaskInfo SampleStatus),
        (NewJobInfo "job" [sampleTask "t1" SampleStatus.Pending {"cpu"},
          sampleTask "t2" SampleStatus.Running {"cpu"}]).Tasks.lookup k = some t ∧
        t.UID = uid := by
  have horder : IsRangeOrder [sampleTask "t2" SampleStatus.Running {"cpu"},
        sampleTask "t1" SampleStatus.Pending {"cpu"}]
      (NewJobInfo "job" [sampleTask "t1" SampleStatus.Pending {"cpu"},
        sampleTask "t2" SampleStatus.Running {"cpu"}]).Tasks := by
    unfold IsRangeOrder
    decide
  have h := Clone_spec
    (NewJobInfo "job" [sampleTask "t1" SampleStatus.Pending {"cpu"},
      sampleTask "t2" SampleStatus.Running {"cpu"}])
    [sampleTask "t2" SampleStatus.Running {"cpu"},
      sampleTask "t1" SampleStatus.Pending {"cpu"}]
    (ReachableFresh.new "job" [sampleTask "t1" SampleStatus.Pending {"cpu"},
      sampleTask "t2" SampleStatus.Running {"cpu"}] (by decide)).wellFormed.buckets
    horder
  exact ⟨horder, h.1.1, h.2.1⟩

end Api

/-! ## Pipelining and non-empty buckets -/

namespace Api

section Pipelining

variable {S : Type} [DecidableEq S] [TaskStatusDecl S]

theorem sumOver_nonneg {K : Type} {V : Type} (f : K → V → Int) (hf : ∀ k v, 0 ≤ f k v)
    (m : Finmap (fun _ : K => V)) : 0 ≤ sumOver f m := by
  unfold sumOver
  apply Multiset.sum_nonneg
  intro x hx
  obtain ⟨e, -, rfl⟩ := Multiset.mem_map.mp hx
  exact hf e.1 e.2

theorem WaitingTaskNum_nonneg (ji : JobInfo S) : 0 ≤ WaitingTaskNum ji := by
  unfold WaitingTaskNum
  rw [foldl_eq_sumOver (fun (status : S) (tasks : tasksMap S) =>
    if status = TaskStatusDecl.Pipelined then (len tasks : Int) else 0)]
  · rw [zero_add]
    apply sumOver_nonneg
    intro k v
    split_ifs
    · exact Int.natCast_nonneg _
    · exact le_refl _
  · intro d a b
    unfold waitingStep
    split_ifs <;> simp

/-- C23: for every job, the ready-task count never exceeds the sum of the
waiting (pipelined) task count and the ready-task count, so that `Ready()`
implies `Pipelined()`: a job that is ready is also pipelined. -/
theorem Ready_imp_Pipelined (ji : JobInfo S) :
    ReadyTaskNum ji ≤ WaitingTaskNum ji + ReadyTaskNum ji ∧
      (Ready ji = true → Pipelined ji = true) := by
  have h := WaitingTaskNum_nonneg ji
  refine ⟨by omega, fun hr => ?_⟩
  unfold Ready at hr
  unfold Pipelined
  rw [decide_eq_true_iff] at hr ⊢
  omega

end Pipelining

end Api

namespace Api

section NonEmptyBuckets

variable {S : Type} [DecidableEq S] [TaskStatusDecl S]

/-- `AddTaskInfo` of any task leaves no bucket empty. -/
theorem AddTaskInfo_buckets_nonempty (ji : JobInfo S) (ti : TaskInfo S)
    (h : ∀ (s : S) (b : tasksMap S), ji.TaskStatusIndex.lookup s = some b → b ≠ ∅) :
    ∀ (s : S) (b : tasksMap S), (AddTaskInfo ji ti).TaskStatusIndex.lookup s = some b →
      b ≠ ∅ := by
  intro s b hb
  rw [AddTaskInfo_index] at hb
  by_cases hs : s = ti.Status
  · subst hs
    rw [Finmap.lookup_insert] at hb
    injection hb with hb
    subst hb
    intro he
    have hl := Finmap.lookup_insert (a := ti.UID) (b := ti)
      ((ji.TaskStatusIndex.lookup ti.Status).getD ∅)
    rw [he, Finmap.lookup_empty] at hl
    simp at hl
  · rw [Finmap.lookup_insert_of_ne _ hs] at hb
    exact h s b hb

/-- `deleteTaskIndex` leaves no bucket empty: the bucket it empties is
deleted. -/
theorem deleteTaskIndex_buckets_nonempty (ji : JobInfo S) (ti : TaskInfo S)
    (h : ∀ (s : S) (b : tasksMap S), ji.TaskStatusIndex.lookup s = some b → b ≠ ∅) :
    ∀ (s : S) (b : tasksMap S), (deleteTaskIndex ji ti).TaskStatusIndex.lookup s = some b →
      b ≠ ∅ := by
  intro s b hb
  cases hl : ji.TaskStatusIndex.lookup ti.Status with
  | none =>
    rw [deleteTaskIndex_index_of_none hl] at hb
    exact h s b hb
  | some b0 =>
    rw [deleteTaskIndex_lookup ji hl s] at hb
    by_cases hs : s = ti.Status
    · rw [if_pos hs] at hb
      by_cases he : b0.erase ti.UID = ∅
      · rw [if_pos he] at hb
        simp at hb
      · rw [if_neg he] at hb
        injection hb with hb
        rw [← hb]
        exact he
    · rw [if_neg hs] at hb
      exact h s b hb

/-- A completed `DeleteTaskInfo` leaves no bucket empty. -/
theorem DeleteTaskInfo_buckets_nonempty {ji ji1 : JobInfo S} {ti : TaskInfo S}
    {err : Option Error} (hd : DeleteTaskInfo ji ti = some (ji1, err))
    (h : ∀ (s : S) (b : tasksMap S), ji.TaskStatusIndex.lookup s = some b → b ≠ ∅) :
    ∀ (s : S) (b : tasksMap S), ji1.TaskStatusIndex.lookup s = some b → b ≠ ∅ := by
  cases hl : ji.Tasks.lookup ti.UID with
  | none =>
    rw [DeleteTaskInfo_of_lookup_none hl] at hd
    simp only [Option.some.injEq, Prod.mk.injEq] at hd
    rw [← hd.1]
    exact h
  | some task =>
    obtain ⟨-, -, -, hji1⟩ := DeleteTaskInfo_of_lookup_some hl hd
    rw [hji1]
    exact deleteTaskIndex_buckets_nonempty _ task h

/-- A completed `UpdateTaskStatus` leaves no bucket empty. -/
theorem UpdateTaskStatus_buckets_nonempty {ji ji1 : JobInfo S} {task task1 : TaskInfo S}
    {status : S} {err : Option Error}
    (hu : UpdateTaskStatus ji task status = some (ji1, task1, err))
    (h : ∀ (s : S) (b : tasksMap S), ji.TaskStatusIndex.lookup s = some b → b ≠ ∅) :
    ∀ (s : S) (b : tasksMap S), ji1.TaskStatusIndex.lookup s = some b → b ≠ ∅ := by
  unfold UpdateTaskStatus at hu
  cases hv : validateStatusUpdate task.Status status with
  | some e =>
    rw [hv] at hu
    simp only [Option.some.injEq, Prod.mk.injEq] at hu
    rw [← hu.1]
    exact h
  | none =>
    rw [hv] at hu
    cases hd : DeleteTaskInfo ji task with
    | none =>
      rw [hd] at hu
      simp at hu
    | some r =>
      obtain ⟨ji2, err2⟩ := r
      rw [hd] at hu
      simp only [Option.some.injEq, Prod.mk.injEq] at hu
      rw [← hu.1]
      exact AddTaskInfo_buckets_nonempty _ _ (DeleteTaskInfo_buckets_nonempty hd h)

/-- Adding a list of tasks leaves no bucket empty. -/
theorem foldl_AddTaskInfo_buckets_nonempty (tasks : List (TaskInfo S)) :
    ∀ ji : JobInfo S,
      (∀ (s : S) (b : tasksMap S), ji.TaskStatusIndex.lookup s = some b → b ≠ ∅) →
      ∀ (s : S) (b : tasksMap S),
        (tasks.foldl AddTaskInfo ji).TaskStatusIndex.lookup s = some b → b ≠ ∅ := by
  induction tasks with
  | nil =>
    intro ji h
    exact h
  | cons t ts ih =>
    intro ji h
    rw [List.foldl_cons]
    exact ih _ (AddTaskInfo_buckets_nonempty ji t h)

/-- C24: for every job obtained from `NewJobInfo` by any finite sequence of
`AddTaskInfo`, `DeleteTaskInfo` and `UpdateTaskStatus` calls, every bucket
present in `TaskStatusIndex` is non-empty: a bucket is created only together
with its first task and is removed when its last task is deleted. -/
theorem Reachable.buckets_nonempty {ji : JobInfo S} (h : Reachable ji) :
    ∀ (s : S) (b : tasksMap S), ji.TaskStatusIndex.lookup s = some b → b ≠ ∅ := by
  induction h with
  | new uid tasks =>
    unfold NewJobInfo
    apply foldl_AddTaskInfo_buckets_nonempty
    intro s b hb
    simp [Finmap.lookup_empty] at hb
  | add ti _ ih => exact AddTaskInfo_buckets_nonempty _ ti ih
  | delete ti err _ hd ih => exact DeleteTaskInfo_buckets_nonempty hd ih
  | update task task1 status err _ hu ih => exact UpdateTaskStatus_buckets_nonempty hu ih

end NonEmptyBuckets

/-- The claim C24 at the job left by deleting the only running task of a job
that also holds a pending task: the `Running` bucket is gone and the `Pending`
bucket holds its task. -/
theorem Reachable.buckets_nonempty_witness :
    DeleteTaskInfo (NewJobInfo "job" [sampleTask "t1" SampleStatus.Pending {"cpu"},
        sampleTask "t2" SampleStatus.Running {"cpu"}])
      (sampleTask "t2" SampleStatus.Running {"cpu"}) =
      some (NewJobInfo "job" [sampleTask "t1" SampleStatus.Pending {"cpu"}], none) ∧
    (NewJobInfo "job" [sampleTask "t1" SampleStatus.Pending {"cpu"}]).TaskStatusIndex.lookup
      SampleStatus.Running = none ∧
    ∀ (s : SampleStatus) (b : tasksMap SampleStatus),
      (NewJobInfo "job" [sampleTask "t1" SampleStatus.Pending {"cpu"}]).TaskStatusIndex.lookup s =
        some b → b ≠ ∅ :=
  ⟨by decide, by decide,
    Reachable.buckets_nonempty
      (Reachable.delete (sampleTask "t2" SampleStatus.Running {"cpu"}) none
        (Reachable.new "job" [sampleTask "t1" SampleStatus.Pending {"cpu"},
          sampleTask "t2" SampleStatus.Running {"cpu"}]) (by decide))⟩

end Api

/-! ## Task queries -/

namespace Api

section GetTasksLemmas

variable {S : Type} [DecidableEq S] [TaskStatusDecl S]

/-- Under the status-bucket invariant the entries of a bucket are the entries
of `Tasks` that have the status of the bucket. -/
theorem bucket_entries_eq {ji : JobInfo S} (hinv : StatusBucketInvariant ji) {s : S}
    {b : tasksMap S} (hb : ji.TaskStatusIndex.lookup s = some b) :
    b.entries = ji.Tasks.entries.filter (fun e => e.2.Status = s) := by
  rw [Multiset.Nodup.ext b.nodup_entries (ji.Tasks.nodup_entries.filter _)]
  rintro ⟨k, t⟩
  rw [Multiset.mem_filter]
  constructor
  · intro he
    have hl : b.lookup k = some t := Finmap.lookup_eq_some_iff.mpr he
    obtain ⟨h1, h2⟩ := hinv.bucket_in_tasks s b k t hb hl
    exact ⟨Finmap.lookup_eq_some_iff.mp h1, h2⟩
  · rintro ⟨he, hst⟩
    have hl : ji.Tasks.lookup k = some t := Finmap.lookup_eq_some_iff.mpr he
    obtain ⟨b1, hb1, hb1t⟩ := hinv.task_in_bucket k t hl
    have hst1 : t.Status = s := hst
    rw [hst1, hb] at hb1
    injection hb1 with hb1
    rw [hb1]
    exact Finmap.lookup_eq_some_iff.mp hb1t

/-- Under the status-bucket invariant no task of `Tasks` has a status without
a bucket. -/
theorem tasks_filter_of_lookup_none {ji : JobInfo S} (hinv : StatusBucketInvariant ji) {s : S}
    (hb : ji.TaskStatusIndex.lookup s = none) :
    ji.Tasks.entries.filter (fun e => e.2.Status = s) = 0 := by
  rw [Multiset.filter_eq_nil]
  rintro ⟨k, t⟩ he hst
  have hl : ji.Tasks.lookup k = some t := Finmap.lookup_eq_some_iff.mpr he
  obtain ⟨b1, hb1, -⟩ := hinv.task_in_bucket k t hl
  have hst1 : t.Status = s := hst
  rw [hst1, hb] at hb1
  simp at hb1

/-- One iteration of the loop of `GetTasks` appends the tasks of `Tasks` that
have the status of the iteration. -/
theorem GetTasks_step {ji : JobInfo S} (hinv : StatusBucketInvariant ji)
    (order : tasksMap S → List (TaskInfo S))
    (horder : ∀ (s : S) (b : tasksMap S), ji.TaskStatusIndex.lookup s = some b →
      IsRangeOrder (order b) b)
    (res : List (TaskInfo S)) (status : S) :
    ((match ji.TaskStatusIndex.lookup status with
      | some tasks => res ++ (order tasks).map TaskInfo.Clone
      | none => res : List (TaskInfo S)) : Multiset (TaskInfo S)) =
      (res : Multiset (TaskInfo S)) + tasksWithStatus ji [status] := by
  have hvals : tasksWithStatus ji [status] =
      (ji.Tasks.entries.filter (fun e => e.2.Status = status)).map (fun e => e.2) := by
    unfold tasksWithStatus
    rw [Multiset.filter_map]
    congr 1
    apply Multiset.filter_congr
    intro e _
    simp
  rw [hvals]
  cases hb : ji.TaskStatusIndex.lookup status with
  | none =>
    rw [tasks_filter_of_lookup_none hinv hb]
    simp
  | some b =>
    have ho := horder status b hb
    unfold IsRangeOrder at ho
    rw [← bucket_entries_eq hinv hb, ← ho]
    simp only
    rw [← Multiset.coe_add]
    congr 2
    exact List.map_id _

/-- The tasks of several statuses, none of them listed twice, are those of the
first status together with those of the others. -/
theorem tasksWithStatus_cons (ji : JobInfo S) (status : S) (rest : List S)
    (h : status ∉ rest) :
    tasksWithStatus ji (status :: rest) =
      tasksWithStatus ji [status] + tasksWithStatus ji rest := by
  unfold tasksWithStatus
  rw [Multiset.filter_add_filter]
  have hand : Multiset.filter (fun t : TaskInfo S => t.Status ∈ [status] ∧ t.Status ∈ rest)
      (ji.Tasks.entries.map (fun e => e.2)) = 0 := by
    rw [Multiset.filter_eq_nil]
    rintro t - ⟨h1, h2⟩
    rw [List.mem_singleton] at h1
    rw [h1] at h2
    exact h h2
  rw [hand, add_zero]
  apply Multiset.filter_congr
  intro t _
  simp

/-- The loop of `GetTasks` over statuses listed once each appends the tasks of
`Tasks` that have one of these statuses. -/
theorem GetTasks_loop {ji : JobInfo S} (hinv : StatusBucketInvariant ji)
    (order : tasksMap S → List (TaskInfo S))
    (horder : ∀ (s : S) (b : tasksMap S), ji.TaskStatusIndex.lookup s = some b →
      IsRangeOrder (order b) b) :
    ∀ (statuses : List S), statuses.Nodup → ∀ res : List (TaskInfo S),
      ((statuses.foldl (fun res status =>
        match ji.TaskStatusIndex.lookup status with
        | some tasks => res ++ (order tasks).map TaskInfo.Clone
        | none => res) res : List (TaskInfo S)) : Multiset (TaskInfo S)) =
      (res : Multiset (TaskInfo S)) + tasksWithStatus ji statuses := by
  intro statuses
  induction statuses with
  | nil =>
    intro _ res
    have h0 : tasksWithStatus ji [] = 0 := by
      unfold tasksWithStatus
      rw [Multiset.filter_eq_nil]
      intro t _ ht
      simp at ht
    rw [h0, add_zero]
    rfl
  | cons status rest ih =>
    intro hnd res
    rw [List.nodup_cons] at hnd
    rw [List.foldl_cons, ih hnd.2, GetTasks_step hinv order horder res status,
      tasksWithStatus_cons ji status rest hnd.1, add_assoc]

/-- C21 (amended): for every job satisfying the status-bucket invariant and
every list of statuses in which no status is listed twice, and whatever the
order in which the loops visit the buckets, `GetTasks` returns exactly the
job's tasks whose `Status` is among the listed statuses, each exactly once, as
clones field-for-field equal to the stored tasks. -/
theorem GetTasks_spec (ji : JobInfo S) (order : tasksMap S → List (TaskInfo S))
    (statuses : List S) (hinv : StatusBucketInvariant ji)
    (horder : ∀ (s : S) (b : tasksMap S), ji.TaskStatusIndex.lookup s = some b →
      IsRangeOrder (order b) b)
    (hnodup : statuses.Nodup) :
    (GetTasks ji order statuses : Multiset (TaskInfo S)) = tasksWithStatus ji statuses := by
  unfold GetTasks
  rw [GetTasks_loop hinv order horder statuses hnodup []]
  simp

end GetTasksLemmas

end Api

namespace Api

/-- The sample order is an order of the loop over each bucket of the job built
from the pending task `t1` and the running task `t2`. -/
theorem sampleOrder_isRangeOrder (s : SampleStatus) (b : tasksMap SampleStatus)
    (hb : (NewJobInfo "job" [sampleTask "t1" SampleStatus.Pending {"cpu"},
      sampleTask "t2" SampleStatus.Running {"cpu"}]).TaskStatusIndex.lookup s = some b) :
    IsRangeOrder (sampleOrder b) b := by
  have hp : (NewJobInfo "job" [sampleTask "t1" SampleStatus.Pending {"cpu"},
      sampleTask "t2" SampleStatus.Running {"cpu"}]).TaskStatusIndex.lookup
      SampleStatus.Pending =
      some (Finmap.singleton "t1" (sampleTask "t1" SampleStatus.Pending {"cpu"})) := by decide
  have hr : (NewJobInfo "job" [sampleTask "t1" SampleStatus.Pending {"cpu"},
      sampleTask "t2" SampleStatus.Running {"cpu"}]).TaskStatusIndex.lookup
      SampleStatus.Running =
      some (Finmap.singleton "t2" (sampleTask "t2" SampleStatus.Running {"cpu"})) := by decide
  cases s
  case Pending =>
    have h := hb.symm.trans hp
    injection h with h
    subst h
    unfold IsRangeOrder
    decide
  case Running =>
    have h := hb.symm.trans hr
    injection h with h
    subst h
    unfold IsRangeOrder
    decide
  all_goals exact absurd (Finmap.mem_of_lookup_eq_some hb) (by decide)

/-- The claim C21 fails: on the job built from the pending task `t1` and the
running task `t2`, which satisfies the status-bucket invariant, `GetTasks` with
the status `Pending` listed twice, each bucket being read in a range order,
returns the task `t1` twice, while `Tasks` holds it once. -/
theorem GetTasks_duplicate_status :
    StatusBucketInvariant (NewJobInfo "job" [sampleTask "t1" SampleStatus.Pending {"cpu"},
      sampleTask "t2" SampleStatus.Running {"cpu"}]) ∧
    (∀ s b, (NewJobInfo "job" [sampleTask "t1" SampleStatus.Pending {"cpu"},
        sampleTask "t2" SampleStatus.Running {"cpu"}]).TaskStatusIndex.lookup s = some b →
      IsRangeOrder (sampleOrder b) b) ∧
    GetTasks (NewJobInfo "job" [sampleTask "t1" SampleStatus.Pending {"cpu"},
        sampleTask "t2" SampleStatus.Running {"cpu"}]) sampleOrder
      [SampleStatus.Pending, SampleStatus.Pending] =
      [sampleTask "t1" SampleStatus.Pending {"cpu"},
        sampleTask "t1" SampleStatus.Pending {"cpu"}] ∧
    tasksWithStatus (NewJobInfo "job" [sampleTask "t1" SampleStatus.Pending {"cpu"},
        sampleTask "t2" SampleStatus.Running {"cpu"}])
      [SampleStatus.Pending, SampleStatus.Pending] =
      {sampleTask "t1" SampleStatus.Pending {"cpu"}} :=
  ⟨(ReachableFresh.new "job" [sampleTask "t1" SampleStatus.Pending {"cpu"},
      sampleTask "t2" SampleStatus.Running {"cpu"}] (by decide)).wellFormed.buckets,
    sampleOrder_isRangeOrder, by decide, by decide⟩

/-- The amended claim C21 at the job built from the pending task `t1` and the
running task `t2`, for the statuses `Running`, `Pending` and `Failed`. -/
theorem GetTasks_spec_witness :
    [SampleStatus.Running, SampleStatus.Pending, SampleStatus.Failed].Nodup ∧
    (GetTasks (NewJobInfo "job" [sampleTask "t1" SampleStatus.Pending {"cpu"},
        sampleTask "t2" SampleStatus.Running {"cpu"}]) sampleOrder
      [SampleStatus.Running, SampleStatus.Pending, SampleStatus.Failed] :
        Multiset (TaskInfo SampleStatus)) =
      tasksWithStatus (NewJobInfo "job" [sampleTask "t1" SampleStatus.Pending {"cpu"},
        sampleTask "t2" SampleStatus.Running {"cpu"}])
      [SampleStatus.Running, SampleStatus.Pending, SampleStatus.Failed] :=
  ⟨by decide,
    GetTasks_spec (NewJobInfo "job" [sampleTask "t1" SampleStatus.Pending {"cpu"},
        sampleTask "t2" SampleStatus.Running {"cpu"}]) sampleOrder
      [SampleStatus.Running, SampleStatus.Pending, SampleStatus.Failed]
      (ReachableFresh.new "job" [sampleTask "t1" SampleStatus.Pending {"cpu"},
        sampleTask "t2" SampleStatus.Running {"cpu"}] (by decide)).wellFormed.buckets
      sampleOrder_isRangeOrder (by decide)⟩

end Api

/-! ## Readiness of a clone -/

namespace Api

section CloneReadiness

variable {S : Type} [DecidableEq S] [TaskStatusDecl S]

theorem len_erase_add_one {K : Type} {V : Type} [DecidableEq K] {k : K}
    {m : Finmap (fun _ : K => V)} (h : k ∈ m) : len (m.erase k) + 1 = len m := by
  unfold len
  rw [Finmap.keys_erase, Finset.card_erase_add_one (Finmap.mem_keys.mpr h)]

theorem sumOver_eq_zero {K : Type} {V : Type} [DecidableEq K] (f : K → V → Int)
    (m : Finmap (fun _ : K => V)) (h : ∀ k v, m.lookup k = some v → f k v = 0) :
    sumOver f m = 0 := by
  unfold sumOver
  apply Multiset.sum_eq_zero
  intro x hx
  obtain ⟨e, he, rfl⟩ := Multiset.mem_map.mp hx
  exact h e.1 e.2 (Finmap.lookup_eq_some_iff.mpr he)

/-- Under the status-bucket invariant the ready-task count is the number of
tasks of `Tasks` whose status is an allocated status or `Succeeded`. -/
theorem readyTaskCount_eq_tasks (n : Nat) :
    ∀ ji : JobInfo S, StatusBucketInvariant ji → len ji.Tasks = n →
      readyTaskCount ji =
        sumOver (fun (_ : TaskID) (t : TaskInfo S) =>
          if AllocatedStatus t.Status = true ∨ t.Status = TaskStatusDecl.Succeeded
          then (1 : Int) else 0) ji.Tasks := by
  induction n with
  | zero =>
    intro ji hinv hlen
    have hempty : ji.Tasks = ∅ := (len_eq_zero_iff _).mp hlen
    rw [hempty, sumOver_empty]
    unfold readyTaskCount
    apply sumOver_eq_zero
    intro s b hb
    have hb0 : b = ∅ := by
      apply Finmap.ext_lookup
      intro k
      rw [Finmap.lookup_empty]
      cases hk : b.lookup k with
      | none => rfl
      | some t =>
        have := (hinv.bucket_in_tasks s b k t hb hk).1
        rw [hempty, Finmap.lookup_empty] at this
        simp at this
    have hl : len b = 0 := (len_eq_zero_iff b).mpr hb0
    rw [hl]
    simp
  | succ n ih =>
    intro ji hinv hlen
    have hpos : 0 < ji.Tasks.keys.card := by
      unfold len at hlen
      omega
    obtain ⟨k, hk⟩ := Finset.card_pos.mp hpos
    obtain ⟨t, ht⟩ := Finmap.mem_iff.mp (Finmap.mem_keys.mp hk)
    obtain ⟨b, hb, hbt⟩ := hinv.task_in_bucket k t ht
    have hkb : k ∈ b := Finmap.mem_of_lookup_eq_some hbt
    have hinv1 : StatusBucketInvariant
        ({ ji with Tasks := ji.Tasks.erase k,
                   TaskStatusIndex := ji.TaskStatusIndex.insert t.Status (b.erase k) } :
          JobInfo S) := by
      constructor
      · intro u t1 ht1
        change (ji.Tasks.erase k).lookup u = some t1 at ht1
        have hu : u ≠ k := by
          rintro rfl
          rw [Finmap.lookup_erase] at ht1
          simp at ht1
        rw [Finmap.lookup_erase_ne hu] at ht1
        obtain ⟨b1, hb1, hb1t⟩ := hinv.task_in_bucket u t1 ht1
        change ∃ b2 : tasksMap S,
          (ji.TaskStatusIndex.insert t.Status (b.erase k)).lookup t1.Status = some b2 ∧
            b2.lookup u = some t1
        by_cases hs : t1.Status = t.Status
        · rw [hs, hb] at hb1
          injection hb1 with hb1
          subst hb1
          refine ⟨_, by rw [hs]; exact Finmap.lookup_insert _, ?_⟩
          rw [Finmap.lookup_erase_ne hu]
          exact hb1t
        · exact ⟨b1, by rw [Finmap.lookup_insert_of_ne _ hs]; exact hb1, hb1t⟩
      · intro s1 b1 u t1 hb1 hb1t
        change (ji.TaskStatusIndex.insert t.Status (b.erase k)).lookup s1 = some b1 at hb1
        change (ji.Tasks.erase k).lookup u = some t1 ∧ t1.Status = s1
        by_cases hs : s1 = t.Status
        · subst hs
          rw [Finmap.lookup_insert] at hb1
          injection hb1 with hb1
          subst hb1
          have hu : u ≠ k := by
            rintro rfl
            rw [Finmap.lookup_erase] at hb1t
            simp at hb1t
          rw [Finmap.lookup_erase_ne hu] at hb1t
          rw [Finmap.lookup_erase_ne hu]
          exact hinv.bucket_in_tasks _ b u t1 hb hb1t
        · rw [Finmap.lookup_insert_of_ne _ hs] at hb1
          have hold := hinv.bucket_in_tasks s1 b1 u t1 hb1 hb1t
          have hu : u ≠ k := by
            rintro rfl
            rw [ht] at hold
            injection hold.1 with h1
            rw [← h1] at hold
            exact hs hold.2.symm
          rw [Finmap.lookup_erase_ne hu]
          exact hold
    have hlen1 : len (ji.Tasks.erase k) = n := by
      have := len_erase_add_one (Finmap.mem_keys.mp hk)
      omega
    have hih := ih _ hinv1 hlen1
    have hstep : readyTaskCount ji =
        readyTaskCount
          ({ ji with Tasks := ji.Tasks.erase k,
                     TaskStatusIndex := ji.TaskStatusIndex.insert t.Status (b.erase k) } :
            JobInfo S) +
        (if AllocatedStatus t.Status = true ∨ t.Status = TaskStatusDecl.Succeeded
          then (1 : Int) else 0) := by
      unfold readyTaskCount
      rw [sumOver_of_lookup _ hb]
      change _ = sumOver _ (ji.TaskStatusIndex.insert t.Status (b.erase k)) + _
      rw [sumOver_insert]
      have hl := len_erase_add_one hkb
      split_ifs
      · have : (len b : Int) = (len (b.erase k) : Int) + 1 := by exact_mod_cast hl.symm
        omega
      · omega
    rw [hstep, hih]
    change _ = sumOver _ ji.Tasks
    rw [sumOver_of_lookup _ ht]
    change sumOver _ (ji.Tasks.erase k) + _ = _
    omega

/-- Two jobs that satisfy the status-bucket invariant and hold the same tasks
have the same number of ready tasks. -/
theorem ReadyTaskNum_eq_of_tasks_eq {ji1 ji2 : JobInfo S} (h1 : StatusBucketInvariant ji1)
    (h2 : StatusBucketInvariant ji2) (h : ji1.Tasks = ji2.Tasks) :
    ReadyTaskNum ji1 = ReadyTaskNum ji2 := by
  rw [ReadyTaskNum_eq_readyTaskCount, ReadyTaskNum_eq_readyTaskCount,
    readyTaskCount_eq_tasks _ ji1 h1 rfl, readyTaskCount_eq_tasks _ ji2 h2 rfl, h]

/-- A job without tasks, buckets and requests is well formed. -/
theorem WellFormed.of_empty {ji : JobInfo S} (hT : ji.Tasks = ∅) (hI : ji.TaskStatusIndex = ∅)
    (hA : ji.Allocated = EmptyResource) (hR : ji.TotalRequest = EmptyResource) :
    WellFormed ji := by
  refine ⟨?_, ⟨?_, ?_⟩, ?_, ?_, ?_⟩
  · intro u t h
    rw [hT] at h
    simp [Finmap.lookup_empty] at h
  · intro u t h
    rw [hT] at h
    simp [Finmap.lookup_empty] at h
  · intro s b u t h
    rw [hI] at h
    simp [Finmap.lookup_empty] at h
  · intro s b h
    rw [hI] at h
    simp [Finmap.lookup_empty] at h
  · rw [hR, hT]
    simp [totalResreq, sumOver_empty, EmptyResource]
  · rw [hA, hT]
    simp [allocatedResreq, sumOver_empty, EmptyResource]

/-- The tasks a `range` loop visits have pairwise different UIDs when the map
stores every task under the task's own UID. -/
theorem IsRangeOrder.nodup_uid {order : List (TaskInfo S)} {tasks : tasksMap S}
    (h : IsRangeOrder order tasks)
    (hown : ∀ (uid : TaskID) (t : TaskInfo S), tasks.lookup uid = some t → t.UID = uid) :
    (order.map (fun t => t.UID)).Nodup := by
  have hkeys : (tasks.entries.map Sigma.fst).Nodup := tasks.keys.nodup
  have heq : ((order.map (fun t => t.UID) : List TaskID) : Multiset TaskID) =
      tasks.entries.map Sigma.fst := by
    rw [← Multiset.map_coe, h, Multiset.map_map]
    apply Multiset.map_congr rfl
    intro e he
    exact hown e.1 e.2 (Finmap.lookup_eq_some_iff.mpr he)
  rw [← Multiset.coe_nodup, heq]
  exact hkeys

/-- The clone of a job that stores every task under the task's own UID is well
formed. -/
theorem Clone_wellFormed (ji : JobInfo S) (order : List (TaskInfo S))
    (horder : IsRangeOrder order ji.Tasks)
    (hown : ∀ (uid : TaskID) (t : TaskInfo S), ji.Tasks.lookup uid = some t → t.UID = uid) :
    WellFormed (ji.Clone order) := by
  have hfold : ji.Clone order = order.foldl AddTaskInfo
      { UID := ji.UID, Name := ji.Name, Namespace := ji.Namespace, Queue := ji.Queue,
        Priority := ji.Priority, MinAvailable := ji.MinAvailable,
        NodeSelector := ji.NodeSelector, Allocated := EmptyResource,
        TotalRequest := EmptyResource, JobFitErrors := "", TaskStatusIndex := ∅, Tasks := ∅,
        CreationTimestamp := ji.CreationTimestamp } := rfl
  rw [hfold]
  apply WellFormed.foldl_add order _ (WellFormed.of_empty rfl rfl rfl rfl)
    (horder.nodup_uid hown)
  intro t _
  exact Finmap.not_mem_empty

/-- The clone of a job that stores every task under the task's own UID holds
the tasks of the job. -/
theorem Clone_tasks_eq (ji : JobInfo S) (order : List (TaskInfo S))
    (horder : IsRangeOrder order ji.Tasks)
    (hown : ∀ (uid : TaskID) (t : TaskInfo S), ji.Tasks.lookup uid = some t → t.UID = uid) :
    (ji.Clone order).Tasks = ji.Tasks := by
  obtain ⟨h1, h2, -⟩ := cloneLoop_spec order
    { UID := ji.UID, Name := ji.Name, Namespace := ji.Namespace, Queue := ji.Queue,
      Priority := ji.Priority, MinAvailable := ji.MinAvailable,
      NodeSelector := ji.NodeSelector, Allocated := EmptyResource,
      TotalRequest := EmptyResource, JobFitErrors := "", TaskStatusIndex := ∅, Tasks := ∅,
      CreationTimestamp := ji.CreationTimestamp }
    (by
      intro uid t ht
      simp [Finmap.lookup_empty] at ht)
  apply Finmap.ext_lookup
  intro x
  cases hx : ji.Tasks.lookup x with
  | none =>
    rw [Finmap.lookup_eq_none]
    unfold JobInfo.Clone
    rw [h2 x]
    rintro (hmem | ⟨t, ht, rfl⟩)
    · exact absurd hmem (Finmap.not_mem_empty)
    · obtain ⟨k, hk⟩ := (horder.mem_iff t).mp ht
      rw [hown k t hk, hk] at hx
      simp at hx
  | some t =>
    have hmem : x ∈ (ji.Clone order).Tasks := by
      unfold JobInfo.Clone
      rw [h2 x]
      exact Or.inr ⟨t, (horder.mem_iff t).mpr ⟨x, hx⟩, hown x t hx⟩
    obtain ⟨t1, ht1⟩ := Finmap.mem_iff.mp hmem
    rw [ht1]
    obtain ⟨⟨hu1, -⟩, hor⟩ := h1 x t1 ht1
    rcases hor with hmem1 | hold
    · obtain ⟨k, hk⟩ := (horder.mem_iff t1).mp hmem1
      have hkx : k = x := (hown k t1 hk).symm.trans hu1
      rw [hkx, hx] at hk
      exact hk.symm
    · simp [Finmap.lookup_empty] at hold

/-- `Clone` copies `MinAvailable`. -/
theorem Clone_minAvailable (ji : JobInfo S) (order : List (TaskInfo S)) :
    (ji.Clone order).MinAvailable = ji.MinAvailable := by
  obtain ⟨-, -, -, -, -, -, -, h8⟩ := cloneLoop_spec order
    { UID := ji.UID, Name := ji.Name, Namespace := ji.Namespace, Queue := ji.Queue,
      Priority := ji.Priority, MinAvailable := ji.MinAvailable,
      NodeSelector := ji.NodeSelector, Allocated := EmptyResource,
      TotalRequest := EmptyResource, JobFitErrors := "", TaskStatusIndex := ∅, Tasks := ∅,
      CreationTimestamp := ji.CreationTimestamp }
    (by
      intro uid t ht
      simp [Finmap.lookup_empty] at ht)
  exact h8

/-- C22: for every job built from `NewJobInfo` by the three operations that
satisfies the status-bucket invariant, and whatever the order in which the loop
of `Clone` visits the tasks, the clone returned by `Clone` has the same
`ReadyTaskNum` and the same `Ready` result as the job. -/
theorem Clone_ready (ji : JobInfo S) (order : List (TaskInfo S))
    (hreach : Reachable ji) (hinv : StatusBucketInvariant ji)
    (horder : IsRangeOrder order ji.Tasks) :
    ReadyTaskNum (ji.Clone order) = ReadyTaskNum ji ∧ Ready (ji.Clone order) = Ready ji := by
  have hown := hreach.covered.keys
  have hnum : ReadyTaskNum (ji.Clone order) = ReadyTaskNum ji :=
    ReadyTaskNum_eq_of_tasks_eq (Clone_wellFormed ji order horder hown).buckets hinv
      (Clone_tasks_eq ji order horder hown)
  refine ⟨hnum, ?_⟩
  unfold Ready
  rw [hnum, Clone_minAvailable]

end CloneReadiness

/-- The claim C22 at the job built from a pending and a running task, with the
loop of `Clone` visiting the running task first. -/
theorem Clone_ready_witness :
    IsRangeOrder [sampleTask "t2" SampleStatus.Running {"cpu"},
        sampleTask "t1" SampleStatus.Pending {"cpu"}]
      (NewJobInfo "job" [sampleTask "t1" SampleStatus.Pending {"cpu"},
        sampleTask "t2" SampleStatus.Running {"cpu"}]).Tasks ∧
    ReadyTaskNum ((NewJobInfo "job" [sampleTask "t1" SampleStatus.Pending {"cpu"},
        sampleTask "t2" SampleStatus.Running {"cpu"}]).Clone
      [sampleTask "t2" SampleStatus.Running {"cpu"},
        sampleTask "t1" SampleStatus.Pending {"cpu"}]) =
      ReadyTaskNum (NewJobInfo "job" [sampleTask "t1" SampleStatus.Pending {"cpu"},
        sampleTask "t2" SampleStatus.Running {"cpu"}]) ∧
    Ready ((NewJobInfo "job" [sampleTask "t1" SampleStatus.Pending {"cpu"},
        sampleTask "t2" SampleStatus.Running {"cpu"}]).Clone
      [sampleTask "t2" SampleStatus.Running {"cpu"},
        sampleTask "t1" SampleStatus.Pending {"cpu"}]) =
      Ready (NewJobInfo "job" [sampleTask "t1" SampleStatus.Pending {"cpu"},
        sampleTask "t2" SampleStatus.Running {"cpu"}]) := by
  have horder : IsRangeOrder [sampleTask "t2" SampleStatus.Running {"cpu"},
        sampleTask "t1" SampleStatus.Pending {"cpu"}]
      (NewJobInfo "job" [sampleTask "t1" SampleStatus.Pending {"cpu"},
        sampleTask "t2" SampleStatus.Running {"cpu"}]).Tasks := by
    unfold IsRangeOrder
    decide
  exact ⟨horder, Clone_ready
    (NewJobInfo "job" [sampleTask "t1" SampleStatus.Pending {"cpu"},
      sampleTask "t2" SampleStatus.Running {"cpu"}])
    [sampleTask "t2" SampleStatus.Running {"cpu"},
      sampleTask "t1" SampleStatus.Pending {"cpu"}]
    (Reachable.new "job" [sampleTask "t1" SampleStatus.Pending {"cpu"},
      sampleTask "t2" SampleStatus.Running {"cpu"}])
    (ReachableFresh.new "job" [sampleTask "t1" SampleStatus.Pending {"cpu"},
      sampleTask "t2" SampleStatus.Running {"cpu"}] (by decide)).wellFormed.buckets
    horder⟩

end Api
